import Mathlib

/-!
Verification of the Extractor repository (email_extractor): a shallow
embedding of its URL normalization, contact-page classifier, email
harvesting pipeline, HTTP fetch retry logic and crawl orchestration,
with theorems settling the specification claims.

Strings are modelled as lists of Unicode code points (`List Nat`), which
matches Python `str` semantics (including lone surrogates, which Lean
`Char` cannot represent).  Fallible Python code is modelled with
`Except Unit`, where `Except.error ()` stands for a raised exception.
-/

namespace Extractor

/-- Code points of a Lean string literal, used to write concrete inputs. -/
def codes (s : String) : List Nat := s.data.map Char.toNat

/-- Python `str.lower` restricted to ASCII case mapping (A-Z to a-z);
the embedding is used on ASCII data. -/
def lowerChar (c : Nat) : Nat := if 65 ≤ c ∧ c ≤ 90 then c + 32 else c

def pyLower (l : List Nat) : List Nat := l.map lowerChar

/-- ASCII whitespace, the characters stripped by `str.strip` on the
ASCII data this code handles. -/
def isSpaceChar (c : Nat) : Bool := c = 32 ∨ c = 9 ∨ c = 10 ∨ c = 13 ∨ c = 11 ∨ c = 12

/-- Python `str.strip`: drop leading and trailing whitespace. -/
def pyStrip (l : List Nat) : List Nat :=
  ((l.dropWhile isSpaceChar).reverse.dropWhile isSpaceChar).reverse

/-- Split at the first occurrence of code point `c`:
returns the part before it and, when present, the part after it
(Python `s.split(c, 1)` and `s.find(c)`). -/
def splitFirst (c : Nat) : List Nat → List Nat × Option (List Nat)
  | [] => ([], none)
  | x :: xs =>
    if x = c then ([], some xs)
    else
      let r := splitFirst c xs
      (x :: r.1, r.2)

theorem splitFirst_append (c : Nat) (l r : List Nat) (h : c ∉ l) :
    splitFirst c (l ++ c :: r) = (l, some r) := by
  induction l with
  | nil => simp [splitFirst]
  | cons x xs ih =>
    simp only [List.mem_cons, not_or] at h
    simp [splitFirst, Ne.symm h.1, ih h.2]

theorem splitFirst_not_mem (c : Nat) (l : List Nat) (h : c ∉ l) :
    splitFirst c l = (l, none) := by
  induction l with
  | nil => simp [splitFirst]
  | cons x xs ih =>
    simp only [List.mem_cons, not_or] at h
    simp [splitFirst, Ne.symm h.1, ih h.2]

theorem splitFirst_reassemble (c : Nat) :
    ∀ l pre rest, splitFirst c l = (pre, some rest) → l = pre ++ c :: rest := by
  intro l
  induction l with
  | nil => intro pre rest h; simp [splitFirst] at h
  | cons x xs ih =>
    intro pre rest h
    by_cases hx : x = c
    · simp [splitFirst, hx] at h
      simp [hx, ← h.1, ← h.2]
    · rcases hsp : splitFirst c xs with ⟨p, o⟩
      simp [splitFirst, hx, hsp] at h
      cases o with
      | none => simp at h
      | some r =>
        simp at h
        have := ih p r hsp
        simp [← h.1, this, ← h.2]

theorem splitFirst_fst_subset (c : Nat) :
    ∀ l, ∀ x ∈ (splitFirst c l).1, x ∈ l := by
  intro l
  induction l with
  | nil => simp [splitFirst]
  | cons y ys ih =>
    intro x hx
    by_cases hy : y = c
    · simp [splitFirst, hy] at hx
    · simp [splitFirst, hy] at hx
      rcases hx with h | h
      · simp [h]
      · exact List.mem_cons_of_mem _ (ih x h)

theorem splitFirst_fst_not_mem (c : Nat) : ∀ l, c ∉ (splitFirst c l).1 := by
  intro l
  induction l with
  | nil => simp [splitFirst]
  | cons y ys ih =>
    by_cases hy : y = c
    · simp [splitFirst, hy]
    · simp [splitFirst, hy]
      exact ⟨fun h => hy h.symm, ih⟩

theorem splitFirst_length (c : Nat) :
    ∀ l pre rest, splitFirst c l = (pre, some rest) → rest.length < l.length := by
  intro l pre rest h
  have := splitFirst_reassemble c l pre rest h
  subst this
  simp
  omega

/-- Substring containment, Python `pat in s` for nonempty `pat`. -/
def containsSub (pat : List Nat) : List Nat → Bool
  | [] => pat.isEmpty
  | c :: cs => pat.isPrefixOf (c :: cs) || containsSub pat cs

/-- Membership test used throughout (Python `in` on lists and sets). -/
def pyMem (x : List Nat) (l : List (List Nat)) : Bool := l.contains x

theorem pyMem_iff (x : List Nat) (l : List (List Nat)) : pyMem x l = true ↔ x ∈ l := by
  simp [pyMem]

/-! ## CPython urllib.parse model

`utils.normalize_url`, `utils.is_valid_url` and `utils.is_likely_contact_page`
all call `urllib.parse.urlparse`.  The model below follows CPython 3.10
`urlsplit`/`urlparse` (unsafe-byte removal, scheme split on the first colon,
authority split, fragment then query split, params split for schemes in
`uses_params`); `_checknetloc` never raises on ASCII input and the theorems
below restrict inputs to ASCII, so it is omitted.  The bracket-balance check
on the authority raises `ValueError`, modelled as `Except.error ()`. -/

/-- ASCII letter. -/
def isAlphaChar (c : Nat) : Bool := (65 ≤ c ∧ c ≤ 90) ∨ (97 ≤ c ∧ c ≤ 122)

/-- ASCII lowercase letter. -/
def isLowerAlpha (c : Nat) : Bool := 97 ≤ c ∧ c ≤ 122

/-- ASCII digit. -/
def isDigitChar (c : Nat) : Bool := 48 ≤ c ∧ c ≤ 57

/-- Characters of `urllib.parse.scheme_chars`: letters, digits, `+`, `-`, `.`. -/
def schemeChar (c : Nat) : Bool := isAlphaChar c || isDigitChar c || c = 43 || c = 45 || c = 46

/-- `_UNSAFE_URL_BYTES_TO_REMOVE`: tab, carriage return, newline are removed
from the URL before parsing (sequential `str.replace` with the empty string,
which is a filter). -/
def stripUnsafe (l : List Nat) : List Nat := l.filter fun c => ¬ (c = 9 ∨ c = 13 ∨ c = 10)

/-- Authority delimiters in `_splitnetloc`: `/`, `?`, `#`. -/
def isNetlocDelim (c : Nat) : Bool := c = 47 ∨ c = 63 ∨ c = 35

structure UrlParts where
  scheme : List Nat
  netloc : List Nat
  path : List Nat
  query : List Nat
  fragment : List Nat
  deriving DecidableEq, Repr

/-- `_splitparams`: strip `;params` from the last path segment; the model
keeps only the path part, which is all `normalize_url` reads. -/
def splitParamsPath (p : List Nat) : List Nat :=
  if 47 ∈ p then
    -- find the semicolon at or after the last slash
    match splitFirst 47 p.reverse with
    | (revLast, _) =>
      -- revLast is the reversed last segment
      match splitFirst 59 revLast.reverse with
      | (_, none) => p
      | (keep, some _) => (p.take (p.length - revLast.length)) ++ keep
  else (splitFirst 59 p).1

/-- Schemes for which `urlparse` performs the params split (`uses_params`,
the ones expressible in ASCII); the empty scheme is also in the list. -/
def usesParams : List (List Nat) :=
  [codes "", codes "ftp", codes "hdl", codes "prospero", codes "http", codes "imap",
   codes "https", codes "shttp", codes "rtsp", codes "rtspu", codes "sip",
   codes "sips", codes "mms", codes "sftp", codes "tel"]

/-- Scheme split: the part before the first colon becomes the (lowercased)
scheme when nonempty and made of scheme characters; otherwise the scheme is
empty and the URL is left whole. -/
def schemeSplit (u : List Nat) : List Nat × List Nat :=
  match splitFirst 58 u with
  | (before, some after) =>
    if before ≠ [] ∧ before.all schemeChar then (pyLower before, after) else ([], u)
  | (_, none) => ([], u)

/-- The `ValueError` condition on the authority: one bracket without
the other. -/
def bracketBad (nl : List Nat) : Bool :=
  ((91 ∈ nl) ∧ ¬ (93 ∈ nl)) ∨ ((93 ∈ nl) ∧ ¬ (91 ∈ nl))

/-- Fragment split, query split and params split applied to what remains
after the scheme and authority were removed. -/
def afterNetloc (scheme netloc rest2 : List Nat) : UrlParts :=
  let fr := splitFirst 35 rest2
  let qr := splitFirst 63 fr.1
  let rawPath := qr.1
  let path := if scheme ∈ usesParams ∧ 59 ∈ rawPath then splitParamsPath rawPath else rawPath
  ⟨scheme, netloc, path, qr.2.getD [], fr.2.getD []⟩

/-- Authority split (`url[:2] == '//'` and `_splitnetloc`) followed by the
remaining splits of `afterNetloc`. -/
def parseAfterScheme (scheme rest : List Nat) : Except Unit UrlParts :=
  match rest with
  | 47 :: 47 :: tail =>
    if bracketBad (tail.takeWhile fun c => ! isNetlocDelim c) then .error ()
    else .ok (afterNetloc scheme (tail.takeWhile fun c => ! isNetlocDelim c)
      (tail.dropWhile fun c => ! isNetlocDelim c))
  | _ => .ok (afterNetloc scheme [] rest)

/-- CPython `urllib.parse.urlparse(url)` (default `scheme=''`,
`allow_fragments=True`), CPython 3.10 semantics, returning the fields
`normalize_url` reads.  `Except.error ()` models the `ValueError` raised
on a bracket-unbalanced authority. -/
def pyUrlparse (url0 : List Nat) : Except Unit UrlParts :=
  let sr := schemeSplit (stripUnsafe url0)
  parseAfterScheme sr.1 sr.2

/-- `utils.is_valid_url`: parse and require truthy scheme and netloc;
any exception yields False. -/
def is_valid_url (url : List Nat) : Bool :=
  match pyUrlparse url with
  | .error _ => false
  | .ok parts => parts.scheme ≠ [] ∧ parts.netloc ≠ []

/-- The reconstruction done by `normalize_url`:
`f"{scheme}://{netloc}{path}"` plus `?query` when the query is truthy. -/
def reconstructUrl (p : UrlParts) : List Nat :=
  let base := p.scheme ++ codes "://" ++ p.netloc ++ p.path
  if p.query ≠ [] then base ++ codes "?" ++ p.query else base

/-- `utils.normalize_url(url)` with the default `base_url=None` (the
`base_url and ...` guard short-circuits, so `urljoin` is never reached).
Returns `none` for falsy (empty) input; otherwise rebuilds
`scheme://netloc+path` and appends `?query` when the query is nonempty.
The `ValueError` that `urlparse` can raise propagates. -/
def normalize_url (url : List Nat) : Except Unit (Option (List Nat)) :=
  if url = [] then .ok none
  else
    match pyUrlparse url with
    | .error e => .error e
    | .ok parts => .ok (some (reconstructUrl parts))

/-! ## Reparse stability

Auxiliary facts showing that the string `normalize_url` rebuilds parses
back to the same components, which gives idempotence of normalization. -/

/-- An ASCII string (every code point below 128). -/
abbrev allAscii (l : List Nat) : Prop := ∀ c ∈ l, c < 128

theorem stripUnsafe_eq_self (l : List Nat)
    (h : ∀ c ∈ l, ¬ (c = 9 ∨ c = 13 ∨ c = 10)) : stripUnsafe l = l := by
  unfold stripUnsafe
  exact List.filter_eq_self.2 fun c hc => by simpa using h c hc

theorem takeWhile_append_all (p : Nat → Bool) (a b : List Nat)
    (ha : ∀ x ∈ a, p x = true) (hb : b = [] ∨ ∃ c cs, b = c :: cs ∧ p c = false) :
    (a ++ b).takeWhile p = a ∧ (a ++ b).dropWhile p = b := by
  induction a with
  | nil =>
    rcases hb with h | ⟨c, cs, rfl, hc⟩
    · simp [h]
    · simp [List.takeWhile, List.dropWhile, hc]
  | cons x xs ih =>
    have hx := ha x (by simp)
    have ihr := ih fun y hy => ha y (by simp [hy])
    simp [List.takeWhile, List.dropWhile, hx, ihr.1, ihr.2]

/-- Invariant on parse components that makes the reconstructed URL parse
back to the same scheme, netloc, path and query. -/
structure Reparsable (p : UrlParts) : Prop where
  scheme_ne : p.scheme ≠ []
  scheme_ok : ∀ c ∈ p.scheme, schemeChar c = true
  scheme_lower : pyLower p.scheme = p.scheme
  netloc_nodelim : ∀ c ∈ p.netloc, isNetlocDelim c = false
  netloc_bracket : bracketBad p.netloc = false
  netloc_safe : ∀ c ∈ p.netloc, ¬ (c = 9 ∨ c = 13 ∨ c = 10)
  path_shape : p.path = [] ∨ ∃ t, p.path = 47 :: t
  path_no_q : 63 ∉ p.path
  path_no_f : 35 ∉ p.path
  path_safe : ∀ c ∈ p.path, ¬ (c = 9 ∨ c = 13 ∨ c = 10)
  path_params : p.scheme ∈ usesParams → 59 ∈ p.path → splitParamsPath p.path = p.path
  query_no_f : 35 ∉ p.query
  query_safe : ∀ c ∈ p.query, ¬ (c = 9 ∨ c = 13 ∨ c = 10)

theorem schemeChar_no_colon (c : Nat) (h : schemeChar c = true) : c ≠ 58 := by
  simp [schemeChar, isAlphaChar, isDigitChar] at h
  omega

theorem schemeChar_safe (c : Nat) (h : schemeChar c = true) :
    ¬ (c = 9 ∨ c = 13 ∨ c = 10) := by
  simp [schemeChar, isAlphaChar, isDigitChar] at h
  omega

/-- The query part that `reconstructUrl` appends after the path. -/
def qpart (p : UrlParts) : List Nat := if p.query ≠ [] then 63 :: p.query else []

theorem reconstructUrl_decomp (p : UrlParts) :
    reconstructUrl p = p.scheme ++ 58 :: 47 :: 47 :: (p.netloc ++ (p.path ++ qpart p)) := by
  unfold reconstructUrl qpart
  by_cases hq : p.query = [] <;> simp [hq, codes]

/-- Reparsing the reconstructed URL recovers the same four components
(the fragment of the result is empty). -/
theorem reparse_reconstruct (p : UrlParts) (h : Reparsable p) :
    pyUrlparse (reconstructUrl p) = .ok ⟨p.scheme, p.netloc, p.path, p.query, []⟩ := by
  have hqpart : ∀ c ∈ qpart p, ¬ (c = 9 ∨ c = 13 ∨ c = 10) := by
    intro c hc
    unfold qpart at hc
    by_cases hq : p.query = []
    · simp [hq] at hc
    · simp [hq] at hc
      rcases hc with rfl | hc
      · omega
      · exact h.query_safe c hc
  have hstrip : stripUnsafe (p.scheme ++ 58 :: 47 :: 47 :: (p.netloc ++ (p.path ++ qpart p)))
      = p.scheme ++ 58 :: 47 :: 47 :: (p.netloc ++ (p.path ++ qpart p)) := by
    apply stripUnsafe_eq_self
    intro c hc
    simp only [List.mem_append, List.mem_cons] at hc
    rcases hc with hc | rfl | rfl | rfl | hc | hc | hc
    · exact schemeChar_safe c (h.scheme_ok c hc)
    · omega
    · omega
    · omega
    · exact h.netloc_safe c hc
    · exact h.path_safe c hc
    · exact hqpart c hc
  have hss : schemeSplit (p.scheme ++ 58 :: 47 :: 47 :: (p.netloc ++ (p.path ++ qpart p)))
      = (p.scheme, 47 :: 47 :: (p.netloc ++ (p.path ++ qpart p))) := by
    unfold schemeSplit
    rw [splitFirst_append 58 _ _ (fun hc => schemeChar_no_colon 58 (h.scheme_ok 58 hc) rfl)]
    dsimp only
    rw [if_pos ⟨h.scheme_ne, List.all_eq_true.2 fun c hc => h.scheme_ok c hc⟩]
    rw [h.scheme_lower]
  have htail := takeWhile_append_all (fun c => ! isNetlocDelim c) p.netloc
      (p.path ++ qpart p)
      (fun x hx => by simp [h.netloc_nodelim x hx])
      (by
        rcases h.path_shape with hp | ⟨t, hp⟩
        · by_cases hq : p.query = []
          · left; simp [hp, qpart, hq]
          · right
            exact ⟨63, p.query, by simp [hp, qpart, hq], by simp [isNetlocDelim]⟩
        · right
          exact ⟨47, t ++ qpart p, by simp [hp], by simp [isNetlocDelim]⟩)
  have hnof : (35 : Nat) ∉ p.path ++ qpart p := by
    intro hc
    rcases List.mem_append.1 hc with hc | hc
    · exact h.path_no_f hc
    · unfold qpart at hc
      by_cases hq : p.query = []
      · simp [hq] at hc
      · rw [if_pos hq] at hc
        rcases List.mem_cons.1 hc with h35 | hc
        · omega
        · exact h.query_no_f hc
  have hparams : (if p.scheme ∈ usesParams ∧ 59 ∈ p.path then splitParamsPath p.path
      else p.path) = p.path := by
    by_cases hsemi : (59 : Nat) ∈ p.path
    · by_cases hu : p.scheme ∈ usesParams
      · simp [hu, hsemi, h.path_params hu hsemi]
      · simp [hu]
    · simp [hsemi]
  rw [reconstructUrl_decomp]
  unfold pyUrlparse
  simp only [hstrip, hss]
  unfold parseAfterScheme
  simp only [htail.1, htail.2, h.netloc_bracket, Bool.false_eq_true, if_false]
  unfold afterNetloc
  rw [splitFirst_not_mem 35 _ hnof]
  by_cases hq : p.query = []
  · simp only [qpart, hq, ne_eq, not_true_eq_false, if_false, List.append_nil]
    rw [splitFirst_not_mem 63 _ h.path_no_q]
    simp only [Option.getD_none]
    simp [hparams, hq]
  · simp only [qpart, hq, ne_eq, not_false_iff, if_true]
    rw [splitFirst_append 63 _ _ h.path_no_q]
    simp only [Option.getD_some]
    simp [hparams]

theorem splitFirst_none_not_mem (c : Nat) :
    ∀ l, (splitFirst c l).2 = none → c ∉ l := by
  intro l
  induction l with
  | nil => simp
  | cons x xs ih =>
    intro h hm
    by_cases hx : x = c
    · simp [splitFirst, hx] at h
    · simp [splitFirst, hx] at h
      rcases List.mem_cons.1 hm with he | hm
      · exact hx he.symm
      · exact ih h hm

theorem splitFirst_fst_length_le (c : Nat) :
    ∀ l, (splitFirst c l).1.length ≤ l.length := by
  intro l
  induction l with
  | nil => simp [splitFirst]
  | cons x xs ih =>
    by_cases hx : x = c
    · simp [splitFirst, hx]
    · simp [splitFirst, hx]
      omega

/-- There is no semicolon in the last slash-separated segment (stated on the
reversed list, matching the way `splitParamsPath` computes it). -/
def lastSegNoSemi (p : List Nat) : Prop := 59 ∉ (splitFirst 47 p.reverse).1

theorem splitParamsPath_subset (p : List Nat) : ∀ c ∈ splitParamsPath p, c ∈ p := by
  intro c hc
  unfold splitParamsPath at hc
  by_cases h47 : (47 : Nat) ∈ p
  · simp only [h47, if_true] at hc
    rcases hsp : splitFirst 59 (splitFirst 47 p.reverse).1.reverse with ⟨keep, o⟩
    rw [hsp] at hc
    cases o with
    | none => exact hc
    | some rest =>
      rcases List.mem_append.1 hc with hc | hc
      · exact List.take_subset _ _ hc
      · have h1 : c ∈ (splitFirst 47 p.reverse).1.reverse := by
          have := splitFirst_fst_subset 59 (splitFirst 47 p.reverse).1.reverse c
          rw [hsp] at this
          exact this hc
        have h2 : c ∈ (splitFirst 47 p.reverse).1 := List.mem_reverse.1 h1
        exact List.mem_reverse.1 (splitFirst_fst_subset 47 p.reverse c h2)
  · simp only [h47, if_false] at hc
    exact splitFirst_fst_subset 59 p c hc

theorem splitParamsPath_of_noSemi (p : List Nat) (h : lastSegNoSemi p) :
    splitParamsPath p = p := by
  unfold splitParamsPath
  unfold lastSegNoSemi at h
  by_cases h47 : (47 : Nat) ∈ p
  · simp only [h47, if_true]
    have hnone : (splitFirst 59 (splitFirst 47 p.reverse).1.reverse).2 = none := by
      rcases hsp : splitFirst 59 (splitFirst 47 p.reverse).1.reverse with ⟨keep, o⟩
      cases o with
      | none => rfl
      | some rest =>
        exfalso
        have := splitFirst_reassemble 59 _ _ _ hsp
        have h59 : (59 : Nat) ∈ (splitFirst 47 p.reverse).1.reverse := by
          rw [this]; simp
        exact h (List.mem_reverse.1 h59)
    rcases hsp : splitFirst 59 (splitFirst 47 p.reverse).1.reverse with ⟨keep, o⟩
    rw [hsp] at hnone
    simp at hnone
    rw [hnone]
  · simp only [h47, if_false]
    have hrev : (47 : Nat) ∉ p.reverse := fun hm => h47 (List.mem_reverse.1 hm)
    rw [splitFirst_not_mem 47 _ hrev] at h
    have h59 : (59 : Nat) ∉ p := fun hm => h (List.mem_reverse.2 hm)
    rw [splitFirst_not_mem 59 _ h59]

theorem splitParamsPath_noSemi (p : List Nat) : lastSegNoSemi (splitParamsPath p) := by
  unfold splitParamsPath lastSegNoSemi
  by_cases h47 : (47 : Nat) ∈ p
  · simp only [h47, if_true]
    rcases hsp : splitFirst 59 (splitFirst 47 p.reverse).1.reverse with ⟨keep, o⟩
    cases o with
    | none =>
      -- the last segment of p itself has no semicolon
      intro hm
      have h59 : (59 : Nat) ∈ (splitFirst 47 p.reverse).1 := hm
      have hnone : (splitFirst 59 (splitFirst 47 p.reverse).1.reverse).2 = none := by
        rw [hsp]
      have := splitFirst_none_not_mem 59 _ hnone
      exact this (List.mem_reverse.2 h59)
    | some rest =>
      -- p = I ++ 47 :: L (L the last segment, reversed as revL), keep has no ; or /
      have hrev47 : (47 : Nat) ∈ p.reverse := List.mem_reverse.2 h47
      rcases hsp47 : splitFirst 47 p.reverse with ⟨revL, o47⟩
      cases o47 with
      | none =>
        exfalso
        exact splitFirst_none_not_mem 47 p.reverse (by rw [hsp47]) hrev47
      | some revI =>
        have hdecomp : p.reverse = revL ++ 47 :: revI := splitFirst_reassemble 47 _ _ _ hsp47
        have hp : p = revI.reverse ++ 47 :: revL.reverse := by
          have := congrArg List.reverse hdecomp
          simpa using this
        have h47revL : (47 : Nat) ∉ revL := by
          have := splitFirst_fst_not_mem 47 p.reverse
          rw [hsp47] at this
          exact this
        rw [hsp47] at hsp
        have hkeep_sub : ∀ c ∈ keep, c ∈ revL := by
          intro c hc
          have := splitFirst_fst_subset 59 revL.reverse c
          rw [hsp] at this
          exact List.mem_reverse.1 (this hc)
        have h59keep : (59 : Nat) ∉ keep := by
          have := splitFirst_fst_not_mem 59 revL.reverse
          rw [hsp] at this
          exact this
        have h47keep : (47 : Nat) ∉ keep := fun hm => h47revL (hkeep_sub 47 hm)
        -- the take picks exactly I ++ [47]
        have hlen : p.length - revL.length = revI.reverse.length + 1 := by
          rw [hp]
          simp
          omega
        have htake : p.take (p.length - revL.length) = revI.reverse ++ [47] := by
          rw [hlen, hp]
          rw [List.take_append_eq_append_take]
          simp
        dsimp only
        rw [htake]
        intro hm
        have : (splitFirst 47 ((revI.reverse ++ [47] ++ keep).reverse)).1 = keep.reverse := by
          have hr : (revI.reverse ++ [47] ++ keep).reverse = keep.reverse ++ 47 :: revI := by
            simp
          rw [hr]
          rw [splitFirst_append 47 _ _ (fun hmm => h47keep (List.mem_reverse.1 hmm))]
        rw [this] at hm
        exact h59keep (List.mem_reverse.1 hm)
  · simp only [h47, if_false]
    intro hm
    have h59 : (59 : Nat) ∉ (splitFirst 59 p).1 := splitFirst_fst_not_mem 59 p
    have := splitFirst_fst_subset 47 (splitFirst 59 p).1.reverse 59 hm
    exact h59 (List.mem_reverse.1 this)

theorem splitFirst_fst_eq_takeWhile (c : Nat) :
    ∀ l, (splitFirst c l).1 = l.takeWhile fun x => x ≠ c := by
  intro l
  induction l with
  | nil => simp [splitFirst]
  | cons x xs ih =>
    by_cases hx : x = c
    · simp [splitFirst, hx, List.takeWhile]
    · simp [splitFirst, hx, List.takeWhile, ih]

theorem takeWhile_append_single_false (p : Nat → Bool) (x : Nat) (hx : p x = false) :
    ∀ a : List Nat, (a ++ [x]).takeWhile p = a.takeWhile p := by
  intro a
  induction a with
  | nil => simp [List.takeWhile, hx]
  | cons y ys ih =>
    by_cases hy : p y = true
    · simp [List.takeWhile, hy, ih]
    · simp only [Bool.not_eq_true] at hy
      simp [List.takeWhile, hy]

theorem mem_takeWhile_pred (p : Nat → Bool) :
    ∀ l : List Nat, ∀ x ∈ l.takeWhile p, p x = true ∧ x ∈ l := by
  intro l
  induction l with
  | nil => simp
  | cons y ys ih =>
    intro x hx
    by_cases hy : p y = true
    · rw [List.takeWhile_cons_of_pos hy] at hx
      rcases List.mem_cons.1 hx with rfl | hx
      · exact ⟨hy, by simp⟩
      · exact ⟨(ih x hx).1, List.mem_cons_of_mem _ (ih x hx).2⟩
    · simp only [Bool.not_eq_true] at hy
      rw [List.takeWhile_cons_of_neg (by simp [hy])] at hx
      simp at hx

theorem dropWhile_cases (p : Nat → Bool) :
    ∀ l : List Nat, l.dropWhile p = [] ∨
      ∃ c cs, l.dropWhile p = c :: cs ∧ p c = false := by
  intro l
  induction l with
  | nil => left; rfl
  | cons x xs ih =>
    by_cases hx : p x = true
    · rw [List.dropWhile_cons_of_pos hx]; exact ih
    · simp only [Bool.not_eq_true] at hx
      right
      exact ⟨x, xs, List.dropWhile_cons_of_neg (by simp [hx]), hx⟩

theorem mem_dropWhile (p : Nat → Bool) :
    ∀ l : List Nat, ∀ x ∈ l.dropWhile p, x ∈ l := by
  intro l
  induction l with
  | nil => simp
  | cons y ys ih =>
    intro x hx
    by_cases hy : p y = true
    · rw [List.dropWhile_cons_of_pos hy] at hx
      exact List.mem_cons_of_mem _ (ih x hx)
    · simp only [Bool.not_eq_true] at hy
      rw [List.dropWhile_cons_of_neg (by simp [hy])] at hx
      exact hx

theorem lowerChar_schemeChar (c : Nat) (h : schemeChar c = true) :
    schemeChar (lowerChar c) = true := by
  simp [schemeChar, isAlphaChar, isDigitChar, lowerChar] at h ⊢
  split_ifs <;> omega

theorem lowerChar_idem (c : Nat) : lowerChar (lowerChar c) = lowerChar c := by
  unfold lowerChar
  split_ifs <;> omega

theorem pyLower_idem (l : List Nat) : pyLower (pyLower l) = pyLower l := by
  unfold pyLower
  rw [List.map_map]
  exact List.map_congr_left fun c _ => lowerChar_idem c

/-- Inversion for the scheme split. -/
theorem schemeSplit_cases (u : List Nat) :
    schemeSplit u = ([], u) ∨
    ∃ before after, u = before ++ 58 :: after ∧ before ≠ [] ∧
      (∀ c ∈ before, schemeChar c = true) ∧ schemeSplit u = (pyLower before, after) := by
  rcases hsp : splitFirst 58 u with ⟨b, o⟩
  cases o with
  | none =>
    left
    unfold schemeSplit
    rw [hsp]
  | some a =>
    by_cases hb : b ≠ [] ∧ b.all schemeChar = true
    · right
      refine ⟨b, a, splitFirst_reassemble 58 u b a hsp, hb.1,
        fun c hc => List.all_eq_true.1 hb.2 c hc, ?_⟩
      unfold schemeSplit
      rw [hsp]
      dsimp only
      rw [if_pos hb]
    · left
      unfold schemeSplit
      rw [hsp]
      dsimp only
      rw [if_neg hb]

/-- Inversion for the authority split. -/
theorem parseAfterScheme_inv (sc rest : List Nat) (parts : UrlParts)
    (h : parseAfterScheme sc rest = .ok parts) :
    parts = afterNetloc sc [] rest ∨
    ∃ tail, rest = 47 :: 47 :: tail ∧
      bracketBad (tail.takeWhile fun c => ! isNetlocDelim c) = false ∧
      parts = afterNetloc sc (tail.takeWhile fun c => ! isNetlocDelim c)
        (tail.dropWhile fun c => ! isNetlocDelim c) := by
  unfold parseAfterScheme at h
  split at h
  · next tail =>
    split at h
    · exact absurd h (by simp)
    · next hbr =>
      right
      refine ⟨tail, rfl, by simpa using hbr, ?_⟩
      simpa using h.symm
  · left
    simpa using h.symm

theorem afterNetloc_scheme (sc nl r : List Nat) : (afterNetloc sc nl r).scheme = sc := rfl

theorem afterNetloc_netloc (sc nl r : List Nat) : (afterNetloc sc nl r).netloc = nl := rfl

theorem afterNetloc_path (sc nl r : List Nat) :
    (afterNetloc sc nl r).path =
    (if sc ∈ usesParams ∧ 59 ∈ (splitFirst 63 (splitFirst 35 r).1).1
     then splitParamsPath (splitFirst 63 (splitFirst 35 r).1).1
     else (splitFirst 63 (splitFirst 35 r).1).1) := rfl

theorem afterNetloc_query (sc nl r : List Nat) :
    (afterNetloc sc nl r).query = (splitFirst 63 (splitFirst 35 r).1).2.getD [] := rfl

/-- After stripping a leading slash, `splitParamsPath` keeps that slash. -/
theorem splitParamsPath_cons47 (w : List Nat) :
    ∃ w2, splitParamsPath (47 :: w) = 47 :: w2 := by
  unfold splitParamsPath
  have h47 : (47 : Nat) ∈ 47 :: w := by simp
  simp only [h47, if_true]
  have hrev : (47 :: w).reverse = w.reverse ++ [47] := by simp
  have hlenL : (splitFirst 47 (47 :: w).reverse).1.length ≤ w.length := by
    rw [splitFirst_fst_eq_takeWhile, hrev,
      takeWhile_append_single_false _ 47 (by simp) w.reverse]
    calc (w.reverse.takeWhile fun x => x ≠ 47).length
        ≤ w.reverse.length := (List.takeWhile_sublist _).length_le
      _ = w.length := by simp
  have hlenc : (47 :: w).length = w.length + 1 := by simp
  rcases hsp : splitFirst 59 (splitFirst 47 (47 :: w).reverse).1.reverse with ⟨keep, o⟩
  cases o with
  | none => exact ⟨w, rfl⟩
  | some rest =>
    obtain ⟨m, hm⟩ : ∃ m, (47 :: w).length - (splitFirst 47 (47 :: w).reverse).1.length
        = m + 1 := ⟨w.length - (splitFirst 47 (47 :: w).reverse).1.length, by omega⟩
    dsimp only
    rw [hm]
    exact ⟨w.take m ++ keep, by simp⟩

/-- Parsing a URL with truthy scheme and netloc yields components that
satisfy the reparse invariant. -/
theorem parse_reparsable (u : List Nat) (parts : UrlParts)
    (hp : pyUrlparse u = .ok parts) (hsc : parts.scheme ≠ []) (hnl : parts.netloc ≠ []) :
    Reparsable parts := by
  unfold pyUrlparse at hp
  rcases hss : schemeSplit (stripUnsafe u) with ⟨sc, rest⟩
  rw [hss] at hp
  -- whatever branch, all characters of rest come from the stripped input
  have hrest_sub : ∀ c ∈ rest, c ∈ stripUnsafe u := by
    rcases schemeSplit_cases (stripUnsafe u) with hcase | ⟨b, a, hdec, _, _, hval⟩
    · intro c hc
      rw [hss] at hcase
      injection hcase with h1 h2
      rw [← h2]; exact hc
    · intro c hc
      rw [hss] at hval
      injection hval with h1 h2
      rw [hdec]
      simp [h2 ▸ hc]
  have hsafe_rest : ∀ c ∈ rest, ¬ (c = 9 ∨ c = 13 ∨ c = 10) := by
    intro c hc
    have := hrest_sub c hc
    unfold stripUnsafe at this
    have := List.of_mem_filter this
    simpa using this
  -- scheme facts
  have hsc_eq : parts.scheme = sc := by
    rcases parseAfterScheme_inv sc rest parts hp with hcase | ⟨tail, _, _, hcase⟩
    · rw [hcase, afterNetloc_scheme]
    · rw [hcase, afterNetloc_scheme]
  have hscheme_facts : (∀ c ∈ sc, schemeChar c = true) ∧ pyLower sc = sc := by
    rcases schemeSplit_cases (stripUnsafe u) with hcase | ⟨b, a, hdec, hbne, hbch, hval⟩
    · rw [hss] at hcase
      injection hcase with h1 h2
      exact absurd h1 (hsc_eq ▸ hsc)
    · rw [hss] at hval
      injection hval with h1 h2
      constructor
      · intro c hc
        rw [h1] at hc
        rcases List.mem_map.1 hc with ⟨c0, hc0, rfl⟩
        exact lowerChar_schemeChar c0 (hbch c0 hc0)
      · rw [h1, pyLower_idem]
  -- the authority branch must have been taken, since the netloc is nonempty
  rcases parseAfterScheme_inv sc rest parts hp with hcase | ⟨tail, hrest, hbr, hcase⟩
  · rw [hcase, afterNetloc_netloc] at hnl
    exact absurd rfl hnl
  have htail_sub : ∀ c ∈ tail, c ∈ rest := by
    intro c hc; rw [hrest]; simp [hc]
  set nl := tail.takeWhile fun c => ! isNetlocDelim c with hnl_def
  set rest2 := tail.dropWhile fun c => ! isNetlocDelim c with hrest2_def
  have hnl_facts : ∀ c ∈ nl, isNetlocDelim c = false ∧ c ∈ tail := by
    intro c hc
    have := mem_takeWhile_pred _ tail c hc
    exact ⟨by simpa using this.1, this.2⟩
  have hrest2_sub : ∀ c ∈ rest2, c ∈ tail := fun c hc => mem_dropWhile _ tail c hc
  -- decompose what remains after the authority
  set F := (splitFirst 35 rest2).1 with hF_def
  set P0 := (splitFirst 63 F).1 with hP0_def
  have hF_sub : ∀ c ∈ F, c ∈ rest2 := fun c hc => splitFirst_fst_subset 35 rest2 c hc
  have hF_no35 : (35 : Nat) ∉ F := splitFirst_fst_not_mem 35 rest2
  have hP0_sub : ∀ c ∈ P0, c ∈ F := fun c hc => splitFirst_fst_subset 63 F c hc
  have hP0_no63 : (63 : Nat) ∉ P0 := splitFirst_fst_not_mem 63 F
  have hpath_eq : parts.path =
      (if sc ∈ usesParams ∧ 59 ∈ P0 then splitParamsPath P0 else P0) := by
    rw [hcase, afterNetloc_path]
  have hquery_eq : parts.query = (splitFirst 63 F).2.getD [] := by
    rw [hcase, afterNetloc_query]
  have hpath_sub : ∀ c ∈ parts.path, c ∈ P0 := by
    intro c hc
    rw [hpath_eq] at hc
    by_cases hg : sc ∈ usesParams ∧ 59 ∈ P0
    · rw [if_pos hg] at hc
      exact splitParamsPath_subset P0 c hc
    · rw [if_neg hg] at hc
      exact hc
  have hpath_mem_tail : ∀ c ∈ parts.path, c ∈ tail := fun c hc =>
    hrest2_sub c (hF_sub c (hP0_sub c (hpath_sub c hc)))
  refine ⟨hsc, hsc_eq ▸ hscheme_facts.1, hsc_eq ▸ hscheme_facts.2, ?_, ?_, ?_, ?_, ?_, ?_,
    ?_, ?_, ?_, ?_⟩
  · -- netloc_nodelim
    intro c hc
    rw [hcase, afterNetloc_netloc] at hc
    exact (hnl_facts c hc).1
  · -- netloc_bracket
    rw [hcase, afterNetloc_netloc]
    exact hbr
  · -- netloc_safe
    intro c hc
    rw [hcase, afterNetloc_netloc] at hc
    exact hsafe_rest c (htail_sub c (hnl_facts c hc).2)
  · -- path_shape
    rw [hpath_eq]
    rcases dropWhile_cases (fun c => ! isNetlocDelim c) tail with hd | ⟨c, cs, hd, hc⟩
    · left
      rw [hP0_def, hF_def, hrest2_def, hd]
      simp [splitFirst]
    · have hcdelim : isNetlocDelim c = true := by simpa using hc
      have hc3 : c = 47 ∨ c = 63 ∨ c = 35 := by
        simpa [isNetlocDelim] using hcdelim
      rcases hc3 with rfl | rfl | rfl
      · -- path starts with a slash
        have hF47 : F = 47 :: (splitFirst 35 cs).1 := by
          rw [hF_def, hrest2_def, hd]
          simp [splitFirst]
        have hP047 : P0 = 47 :: (splitFirst 63 (splitFirst 35 cs).1).1 := by
          rw [hP0_def, hF47]
          simp [splitFirst]
        by_cases hg : sc ∈ usesParams ∧ 59 ∈ P0
        · rw [if_pos hg, hP047]
          rcases splitParamsPath_cons47 ((splitFirst 63 (splitFirst 35 cs).1).1) with ⟨w2, hw⟩
          exact Or.inr ⟨w2, hw⟩
        · rw [if_neg hg, hP047]
          exact Or.inr ⟨_, rfl⟩
      · -- remainder starts with the query marker: empty path
        have hF63 : F = 63 :: (splitFirst 35 cs).1 := by
          rw [hF_def, hrest2_def, hd]
          simp [splitFirst]
        have hP0e : P0 = [] := by
          rw [hP0_def, hF63]
          simp [splitFirst]
        left
        simp [hP0e]
      · -- remainder starts with the fragment marker: empty path
        have hFe : F = [] := by
          rw [hF_def, hrest2_def, hd]
          simp [splitFirst]
        have hP0e : P0 = [] := by
          rw [hP0_def, hFe]
          simp [splitFirst]
        left
        simp [hP0e]
  · -- path_no_q
    intro hc
    exact hP0_no63 (hpath_sub 63 hc)
  · -- path_no_f
    intro hc
    exact hF_no35 (hP0_sub 35 (hpath_sub 35 hc))
  · -- path_safe
    intro c hc
    exact hsafe_rest c (htail_sub c (hpath_mem_tail c hc))
  · -- path_params
    intro hu hsemi
    rw [hsc_eq] at hu
    rw [hpath_eq] at hsemi ⊢
    by_cases hg : sc ∈ usesParams ∧ 59 ∈ P0
    · rw [if_pos hg] at hsemi ⊢
      exact splitParamsPath_of_noSemi _ (splitParamsPath_noSemi P0)
    · rw [if_neg hg] at hsemi
      exact absurd ⟨hu, hsemi⟩ hg
  · -- query_no_f
    intro hc
    rw [hquery_eq] at hc
    rcases hq : (splitFirst 63 F).2 with _ | after
    · rw [hq] at hc; simp at hc
    · rw [hq] at hc
      simp only [Option.getD_some] at hc
      have hdec := splitFirst_reassemble 63 F _ _ (by rw [← hq])
      have : (35 : Nat) ∈ F := by rw [hdec]; simp [hc]
      exact hF_no35 this
  · -- query_safe
    intro c hc
    rw [hquery_eq] at hc
    rcases hq : (splitFirst 63 F).2 with _ | after
    · rw [hq] at hc; simp at hc
    · rw [hq] at hc
      simp only [Option.getD_some] at hc
      have hdec := splitFirst_reassemble 63 F _ _ (by rw [← hq])
      have : c ∈ F := by rw [hdec]; simp [hc]
      exact hsafe_rest c (htail_sub c (hrest2_sub c (hF_sub c this)))

/-! ## Claims C7 and C8: normalization -/

theorem reconstructUrl_fragment_free (p : UrlParts) :
    reconstructUrl ⟨p.scheme, p.netloc, p.path, p.query, []⟩ = reconstructUrl p := rfl

theorem reconstructUrl_ne_nil (p : UrlParts) (_hs : p.scheme ≠ []) :
    reconstructUrl p ≠ [] := by
  intro h
  rw [reconstructUrl_decomp] at h
  rcases List.append_eq_nil.1 h with ⟨h1, h2⟩
  simp at h2

/-- C7 (as written, refuted): the claim says `normalize` returns null for
every malformed input; but on the malformed input "foo" the code returns
the string "://foo", not None. -/
theorem C7_counterexample_malformed_not_null :
    normalize_url (codes "foo") = .ok (some (codes "://foo")) ∧
    is_valid_url (codes "foo") = false := by
  constructor <;> rfl

/-- C7 (amended): `normalize_url` returns None exactly when its input is
falsy (the empty string); every nonempty input either yields a rebuilt
URL (fragment stripped, scheme/netloc/path/query of the parse kept) or
raises the parser ValueError — it is never None. -/
theorem C7_normalize_none_iff_empty :
    ∀ url : List Nat, allAscii url → (normalize_url url = .ok none ↔ url = []) := by
  intro url _
  constructor
  · intro h
    by_contra hne
    unfold normalize_url at h
    rw [if_neg hne] at h
    cases hpp : pyUrlparse url with
    | error e => rw [hpp] at h; exact absurd h (by simp)
    | ok parts => rw [hpp] at h; simp at h
  · intro h
    subst h
    rfl

theorem C7_witness :
    normalize_url (codes "http://a.com") = .ok none ↔ codes "http://a.com" = [] :=
  C7_normalize_none_iff_empty (codes "http://a.com") (by decide)

/-- C8: URL normalization is idempotent — for every URL accepted by
`is_valid_url`, normalizing the normalized form gives the same string. -/
theorem C8_normalize_idempotent (u : List Nat) (hv : is_valid_url u = true) :
    ∃ v, normalize_url u = .ok (some v) ∧ normalize_url v = .ok (some v) := by
  unfold is_valid_url at hv
  cases hpp : pyUrlparse u with
  | error e => rw [hpp] at hv; simp at hv
  | ok parts =>
    rw [hpp] at hv
    simp only [decide_eq_true_eq] at hv
    have hs : parts.scheme ≠ [] := by
      intro h
      rw [h] at hv
      simp at hv
    have hn : parts.netloc ≠ [] := by
      intro h
      rw [h] at hv
      simp at hv
    have hrep := parse_reparsable u parts hpp hs hn
    have hune : u ≠ [] := by
      intro h
      subst h
      have hnil : pyUrlparse ([] : List Nat) = .ok ⟨[], [], [], [], []⟩ := rfl
      rw [hnil] at hpp
      injection hpp with hparts
      rw [← hparts] at hs
      exact hs rfl
    refine ⟨reconstructUrl parts, ?_, ?_⟩
    · unfold normalize_url
      rw [if_neg hune, hpp]
    · unfold normalize_url
      rw [if_neg (reconstructUrl_ne_nil parts hs)]
      rw [reparse_reconstruct parts hrep]
      dsimp only
      rw [reconstructUrl_fragment_free]

theorem C8_witness :
    ∃ v, normalize_url (codes "HTTP://Ex.com/a/b;c?q=1#f") = .ok (some v) ∧
      normalize_url v = .ok (some v) :=
  C8_normalize_idempotent (codes "HTTP://Ex.com/a/b;c?q=1#f") (by decide)

/-! ## Email harvesting model

`utils.EMAIL_REGEX` is `[a-zA-Z0-9._%+-]+@[a-zA-Z0-9.-]+\.[a-zA-Z]{2,}`.
The scan below implements Python `re.findall` semantics for exactly this
pattern: leftmost match, greedy `+` with backtracking (the local-part run
is forced maximal because `@` is not a local character; inside the maximal
domain-character run the engine prefers the rightmost dot that is followed
by at least two letters, the trailing letter run being maximal). -/

/-- Character class `[a-zA-Z0-9._%+-]`. -/
def isLocalChar (c : Nat) : Bool :=
  isAlphaChar c || isDigitChar c || c = 46 || c = 95 || c = 37 || c = 43 || c = 45

/-- Character class `[a-zA-Z0-9.-]`. -/
def isDomChar (c : Nat) : Bool := isAlphaChar c || isDigitChar c || c = 46 || c = 45

/-- Backtracking of `\.[a-zA-Z]{2,}` inside the maximal domain run (the dot
is placed as late as possible); returns the matched part and the leftover
of the run. -/
def domTail : List Nat → Option (List Nat × List Nat)
  | [] => none
  | c :: cs =>
    match domTail cs with
    | some (m, lf) => some (c :: m, lf)
    | none =>
      if c = 46 then
        let run := cs.takeWhile isAlphaChar
        if 2 ≤ run.length then some (46 :: run, cs.dropWhile isAlphaChar) else none
      else none

theorem domTail_reassemble : ∀ d m lf, domTail d = some (m, lf) → d = m ++ lf := by
  intro d
  induction d with
  | nil => intro m lf h; simp [domTail] at h
  | cons c cs ih =>
    intro m lf h
    unfold domTail at h
    cases hdt : domTail cs with
    | some p =>
      rw [hdt] at h
      rcases p with ⟨m1, lf1⟩
      simp at h
      rw [← h.1, ← h.2, List.cons_append]
      rw [← ih m1 lf1 hdt]
    | none =>
      rw [hdt] at h
      by_cases hc : c = 46
      · rw [if_pos hc] at h
        by_cases hrun : 2 ≤ (cs.takeWhile isAlphaChar).length
        · rw [if_pos hrun] at h
          simp at h
          rw [← h.1, ← h.2, hc]
          simp
        · rw [if_neg hrun] at h
          simp at h
      · rw [if_neg hc] at h
        simp at h

/-- Try to match `EMAIL_REGEX` at the start of `s`; on success return the
matched text and the rest of the input. -/
def matchEmailAt (s : List Nat) : Option (List Nat × List Nat) :=
  let loc := s.takeWhile isLocalChar
  let rest := s.dropWhile isLocalChar
  if loc = [] then none
  else
    match rest with
    | a :: rest2 =>
      if a = 64 then
        match rest2.takeWhile isDomChar with
        | [] => none
        | d0 :: drest =>
          match domTail drest with
          | none => none
          | some (m, lf) => some (loc ++ 64 :: d0 :: m, lf ++ rest2.dropWhile isDomChar)
      else none
    | [] => none

theorem matchEmailAt_rest_lt (s m rest : List Nat)
    (h : matchEmailAt s = some (m, rest)) : rest.length < s.length := by
  unfold matchEmailAt at h
  by_cases hloc : s.takeWhile isLocalChar = []
  · rw [if_pos hloc] at h; simp at h
  · rw [if_neg hloc] at h
    rcases hdw : s.dropWhile isLocalChar with _ | ⟨a, rest2⟩
    · rw [hdw] at h; simp at h
    · rw [hdw] at h
      dsimp only at h
      by_cases ha : a = 64
      · rw [if_pos ha] at h
        rcases hdom : rest2.takeWhile isDomChar with _ | ⟨d0, drest⟩
        · rw [hdom] at h; simp at h
        · rw [hdom] at h
          dsimp only at h
          cases hdt : domTail drest with
          | none => rw [hdt] at h; simp at h
          | some p =>
            rcases p with ⟨mm, lf⟩
            rw [hdt] at h
            simp at h
            have hs : s = s.takeWhile isLocalChar ++ a :: rest2 := by
              rw [← hdw, List.takeWhile_append_dropWhile]
            have hr2 : rest2 = (d0 :: drest) ++ rest2.dropWhile isDomChar := by
              rw [← hdom, List.takeWhile_append_dropWhile]
            have hdr : drest = mm ++ lf := domTail_reassemble drest mm lf hdt
            have hlenr2 : rest2.length =
                (d0 :: drest).length + (rest2.dropWhile isDomChar).length := by
              conv_lhs => rw [hr2]
              rw [List.length_append]
            have hlendr : drest.length = mm.length + lf.length := by
              rw [hdr, List.length_append]
            have hlens : s.length = (s.takeWhile isLocalChar).length + (a :: rest2).length := by
              conv_lhs => rw [hs]
              rw [List.length_append]
            have hlocpos : 0 < (s.takeWhile isLocalChar).length :=
              List.length_pos.2 hloc
            rw [← h.2, List.length_append]
            simp only [List.length_cons] at hlenr2 hlens ⊢
            omega
      · rw [if_neg ha] at h
        simp at h

/-- The scan loop of `re.findall(EMAIL_REGEX, s)`, with a fuel argument for
structural recursion; `matchEmailAt_rest_lt` shows each step strictly
shrinks the input, so fuel equal to the input length never runs out. -/
def findallEmailsGo : Nat → List Nat → List (List Nat)
  | 0, _ => []
  | _ + 1, [] => []
  | fuel + 1, c :: cs =>
    match matchEmailAt (c :: cs) with
    | some (m, rest) => m :: findallEmailsGo fuel rest
    | none => findallEmailsGo fuel cs

/-- `re.findall(EMAIL_REGEX, s)`: scan left to right, collecting
non-overlapping matches. -/
def findallEmails (s : List Nat) : List (List Nat) := findallEmailsGo s.length s

/-- Suffixes rejected by `utils.is_valid_email` (the placeholder-domain
denylist, each pattern anchored at the end of the address). -/
def denySuffixes : List (List Nat) :=
  [codes "@example.com", codes "@sample.com", codes "@domain.com",
   codes "@email.com", codes "@test.com", codes "@yourcompany.com"]

/-- The anchored shape check `^[a-zA-Z0-9._%+-]+@[a-zA-Z0-9.-]+\.[a-zA-Z]{2,}$`
of `utils.is_valid_email`: local part, `@`, a nonempty domain-character run,
a dot, and at least two letters running to the end of the string. -/
def emailShapeOk (e : List Nat) : Bool :=
  match e.takeWhile isLocalChar, e.dropWhile isLocalChar with
  | [], _ => false
  | _ :: _, 64 :: r2 =>
    match splitFirst 46 r2.reverse with
    | (revCC, some revB) =>
      decide (2 ≤ revCC.length) && revCC.all isAlphaChar &&
        decide (revB ≠ []) && revB.all isDomChar
    | (_, none) => false
  | _, _ => false

/-- `utils.is_valid_email`: the shape check plus the case-insensitive
placeholder-domain denylist. -/
def is_valid_email (e : List Nat) : Bool :=
  emailShapeOk e && ! denySuffixes.any (fun s => s.isSuffixOf (pyLower e))

/-- The normalize/validate/dedup loop of `utils.extract_emails_from_text`:
each match is lowercased and stripped, then kept when new and valid. -/
def dedupValidate (seen : List (List Nat)) : List (List Nat) → List (List Nat)
  | [] => []
  | m :: ms =>
    let e := pyStrip (pyLower m)
    if ¬ pyMem e seen ∧ is_valid_email e then e :: dedupValidate (e :: seen) ms
    else dedupValidate seen ms

/-- `utils.extract_emails_from_text`. -/
def extract_emails_from_text (t : List Nat) : List (List Nat) :=
  if t = [] then [] else dedupValidate [] (findallEmails t)

/-! ## Entity decoding (`utils.decode_email_entities`) -/

/-- Python `str.replace(target, repl)` for a nonempty target:
left-to-right, non-overlapping (fuel-based structural recursion; every
step consumes at least one character). -/
def pyReplaceGo (target repl : List Nat) : Nat → List Nat → List Nat
  | 0, _ => []
  | _ + 1, [] => []
  | fuel + 1, c :: cs =>
    if target ≠ [] ∧ target.isPrefixOf (c :: cs) then
      repl ++ pyReplaceGo target repl fuel ((c :: cs).drop target.length)
    else c :: pyReplaceGo target repl fuel cs

def pyReplace (target repl : List Nat) (s : List Nat) : List Nat :=
  pyReplaceGo target repl s.length s

/-- The named/literal entity substitutions of `decode_email_entities`,
in the order the code applies them. -/
def entityPairs : List (List Nat × List Nat) :=
  [(codes "&amp;", codes "&"), (codes "&lt;", codes "<"), (codes "&gt;", codes ">"),
   (codes "&#64;", codes "@"), (codes "&#46;", codes "."), (codes "&#45;", codes "-"),
   (codes "&#95;", codes "_"), (codes "&period;", codes "."), (codes "&commat;", codes "@"),
   (codes "&hyphen;", codes "-"), (codes "&lowbar;", codes "_")]

def decValue (ds : List Nat) : Nat := ds.foldl (fun a d => a * 10 + (d - 48)) 0

def isHexChar (c : Nat) : Bool :=
  isDigitChar c || (65 ≤ c ∧ c ≤ 70) || (97 ≤ c ∧ c ≤ 102)

def hexDigitVal (c : Nat) : Nat :=
  if c ≤ 57 then c - 48 else if c ≤ 70 then c - 55 else c - 87

def hexValue (ds : List Nat) : Nat := ds.foldl (fun a d => a * 16 + hexDigitVal d) 0

/-- `re.sub(r'&#(\d+);', lambda m: chr(int(m.group(1))), text)`:
leftmost non-overlapping matches, greedy digit run; `chr` raises
`ValueError` for code points at or above 0x110000 (1114112).
Fuel-based structural recursion; every step consumes at least one
character, so fuel equal to the input length suffices. -/
def subDecEntitiesGo : Nat → List Nat → Except Unit (List Nat)
  | 0, _ => .ok []
  | _ + 1, [] => .ok []
  | fuel + 1, 38 :: 35 :: cs =>
    let ds := cs.takeWhile isDigitChar
    let rest := cs.dropWhile isDigitChar
    if ds ≠ [] ∧ rest.head? = some 59 then
      let n := decValue ds
      if n < 1114112 then (subDecEntitiesGo fuel (rest.drop 1)).map (n :: ·)
      else .error ()
    else (subDecEntitiesGo fuel (35 :: cs)).map (38 :: ·)
  | fuel + 1, c :: cs => (subDecEntitiesGo fuel cs).map (c :: ·)

def subDecEntities (s : List Nat) : Except Unit (List Nat) :=
  subDecEntitiesGo s.length s

/-- `re.sub(r'&#x([0-9a-fA-F]+);', lambda m: chr(int(m.group(1), 16)), text)`. -/
def subHexEntitiesGo : Nat → List Nat → Except Unit (List Nat)
  | 0, _ => .ok []
  | _ + 1, [] => .ok []
  | fuel + 1, 38 :: 35 :: 120 :: cs =>
    let ds := cs.takeWhile isHexChar
    let rest := cs.dropWhile isHexChar
    if ds ≠ [] ∧ rest.head? = some 59 then
      let n := hexValue ds
      if n < 1114112 then (subHexEntitiesGo fuel (rest.drop 1)).map (n :: ·)
      else .error ()
    else (subHexEntitiesGo fuel (35 :: 120 :: cs)).map (38 :: ·)
  | fuel + 1, c :: cs => (subHexEntitiesGo fuel cs).map (c :: ·)

def subHexEntities (s : List Nat) : Except Unit (List Nat) :=
  subHexEntitiesGo s.length s

/-- `utils.decode_email_entities`: the named replacements in order, then
decimal numeric entities, then hexadecimal numeric entities.  `chr` on an
out-of-range code point raises, modelled as `Except.error ()`. -/
def decode_email_entities (t : List Nat) : Except Unit (List Nat) :=
  let t1 := entityPairs.foldl (fun acc pr => pyReplace pr.1 pr.2 acc) t
  match subDecEntities t1 with
  | .error e => .error e
  | .ok t2 => subHexEntities t2

/-! ## Page-level harvesting (`HTTPHandler.extract_emails_from_page`)

The function consumes a fetched page through three observations: the raw
markup string, the visible text `soup.get_text(" ", strip=True)`, and the
`href` attributes of the anchor tags.  The model takes those three
directly. -/

/-- Exact-duplicate removal preserving first occurrence (the final loop of
`extract_emails_from_page`). -/
def dedupExact (seen : List (List Nat)) : List (List Nat) → List (List Nat)
  | [] => []
  | x :: xs => if pyMem x seen then dedupExact seen xs else x :: dedupExact (x :: seen) xs

/-- Method 3 of `extract_emails_from_page`: a `mailto:` target, with any
`?`-suffix removed, is appended when nonempty and not already collected. -/
def mailtoAppend (acc : List (List Nat)) (href : List Nat) : List (List Nat) :=
  if (codes "mailto:").isPrefixOf href then
    let e := (splitFirst 63 (href.drop 7)).1
    if e ≠ [] ∧ ¬ pyMem e acc then acc ++ [e] else acc
  else acc

/-- Methods 1-3 of `HTTPHandler.extract_emails_from_page` on a successfully
fetched page: entity-decode the raw markup and regex-scan it, regex-scan the
visible text, then append `mailto:` targets (query suffix stripped) that are
nonempty and not already present; finally drop exact duplicates. -/
def extractEmailsFromPageContent (htmlText visibleText : List Nat)
    (hrefs : List (List Nat)) : Except Unit (List (List Nat)) :=
  match decode_email_entities htmlText with
  | .error e => .error e
  | .ok decoded =>
    let emails1 := extract_emails_from_text decoded
    let emails2 := emails1 ++ extract_emails_from_text visibleText
    let emails3 := hrefs.foldl mailtoAppend emails2
    .ok (dedupExact [] emails3)

/-! ## Claims C1 and C9: harvesting -/

theorem pyLower_fixed_of_all (l : List Nat) (h : ∀ c ∈ l, lowerChar c = c) :
    pyLower l = l := by
  unfold pyLower
  exact List.map_congr_left h |>.trans (List.map_id l)

theorem mem_pyLower_fixed (l : List Nat) : ∀ c ∈ pyLower l, lowerChar c = c := by
  intro c hc
  rcases List.mem_map.1 hc with ⟨c0, _, rfl⟩
  exact lowerChar_idem c0

theorem pyStrip_subset (l : List Nat) : ∀ c ∈ pyStrip l, c ∈ l := by
  intro c hc
  unfold pyStrip at hc
  rw [List.mem_reverse] at hc
  have h1 := mem_dropWhile isSpaceChar _ c hc
  rw [List.mem_reverse] at h1
  exact mem_dropWhile isSpaceChar _ c h1

theorem lower_strip_lower (m : List Nat) :
    pyLower (pyStrip (pyLower m)) = pyStrip (pyLower m) :=
  pyLower_fixed_of_all _ fun c hc => mem_pyLower_fixed m c (pyStrip_subset _ c hc)

theorem dedupValidate_valid (ms : List (List Nat)) :
    ∀ seen, ∀ e ∈ dedupValidate seen ms, is_valid_email e = true ∧ pyLower e = e := by
  induction ms with
  | nil => intro seen e he; simp [dedupValidate] at he
  | cons m ms ih =>
    intro seen e he
    unfold dedupValidate at he
    by_cases hg : ¬ pyMem (pyStrip (pyLower m)) seen ∧
        is_valid_email (pyStrip (pyLower m)) = true
    · rw [if_pos hg] at he
      rcases List.mem_cons.1 he with rfl | he
      · exact ⟨hg.2, lower_strip_lower m⟩
      · exact ih _ e he
    · rw [if_neg hg] at he
      exact ih _ e he

theorem extract_text_valid (t : List Nat) :
    ∀ e ∈ extract_emails_from_text t, is_valid_email e = true ∧ pyLower e = e := by
  intro e he
  unfold extract_emails_from_text at he
  by_cases ht : t = []
  · rw [if_pos ht] at he; simp at he
  · rw [if_neg ht] at he
    exact dedupValidate_valid _ [] e he

theorem dedupExact_facts (l : List (List Nat)) :
    ∀ seen, (dedupExact seen l).Nodup ∧
      ∀ x ∈ dedupExact seen l, ¬ pyMem x seen ∧ x ∈ l := by
  induction l with
  | nil => intro seen; simp [dedupExact]
  | cons x xs ih =>
    intro seen
    unfold dedupExact
    by_cases hx : pyMem x seen
    · rw [if_pos hx]
      refine ⟨(ih seen).1, ?_⟩
      intro y hy
      exact ⟨((ih seen).2 y hy).1, List.mem_cons_of_mem _ ((ih seen).2 y hy).2⟩
    · rw [if_neg hx]
      constructor
      · rw [List.nodup_cons]
        constructor
        · intro hmem
          have := ((ih (x :: seen)).2 x hmem).1
          exact this (by rw [pyMem_iff]; simp)
        · exact (ih (x :: seen)).1
      · intro y hy
        rcases List.mem_cons.1 hy with rfl | hy
        · exact ⟨hx, by simp⟩
        · have h2 := (ih (x :: seen)).2 y hy
          refine ⟨?_, List.mem_cons_of_mem _ h2.2⟩
          intro hmem
          apply h2.1
          rw [pyMem_iff] at hmem ⊢
          exact List.mem_cons_of_mem _ hmem

theorem mailtoAppend_foldl_mem (hrefs : List (List Nat)) :
    ∀ acc, ∀ e ∈ hrefs.foldl mailtoAppend acc,
      e ∈ acc ∨ ∃ href ∈ hrefs, (codes "mailto:").isPrefixOf href = true ∧
        e = (splitFirst 63 (href.drop 7)).1 := by
  induction hrefs with
  | nil => intro acc e h; exact Or.inl h
  | cons x xs ih =>
    intro acc e h
    rw [List.foldl_cons] at h
    rcases ih (mailtoAppend acc x) e h with hacc | ⟨href, hh, hp, he⟩
    · unfold mailtoAppend at hacc
      by_cases hpx : (codes "mailto:").isPrefixOf x = true
      · rw [if_pos hpx] at hacc
        by_cases hcond : (splitFirst 63 (x.drop 7)).1 ≠ [] ∧
            ¬ pyMem ((splitFirst 63 (x.drop 7)).1) acc
        · rw [if_pos hcond] at hacc
          rcases List.mem_append.1 hacc with h1 | h1
          · exact Or.inl h1
          · right
            refine ⟨x, by simp, hpx, ?_⟩
            simpa using h1
        · rw [if_neg hcond] at hacc
          exact Or.inl hacc
      · rw [if_neg hpx] at hacc
        exact Or.inl hacc
    · exact Or.inr ⟨href, List.mem_cons_of_mem _ hh, hp, he⟩

/-- C1 (as written, refuted): the claim says the harvested list excludes
every placeholder-domain address, but a `mailto:foo@example.com` link is
appended verbatim, without the denylist validation, so the returned list
contains a denylisted address. -/
theorem C1_counterexample_mailto_denylist :
    extractEmailsFromPageContent (codes "a") (codes "") [codes "mailto:foo@example.com"]
      = .ok [codes "foo@example.com"] ∧
    is_valid_email (codes "foo@example.com") = false ∧
    (codes "@example.com") ∈ denySuffixes ∧
    (codes "@example.com").isSuffixOf (codes "foo@example.com") = true := by
  refine ⟨by rfl, by rfl, by decide, by rfl⟩

/-- C1 (amended): the list returned by `extract_emails_from_page` contains
no two identical entries (exact, case-sensitive deduplication), and every
entry either comes from the two regex-scan methods — in which case it is
lowercase and passes `is_valid_email`, hence is off the placeholder
denylist — or is a verbatim `mailto:` target (query suffix stripped),
which is not validated, so case-insensitive duplicates and denylisted
addresses can enter only through `mailto:` links. -/
theorem C1_harvest_dedup_validated (htmlText visibleText : List Nat)
    (hrefs : List (List Nat)) (result : List (List Nat))
    (h : extractEmailsFromPageContent htmlText visibleText hrefs = .ok result) :
    result.Nodup ∧ ∀ e ∈ result,
      (is_valid_email e = true ∧ pyLower e = e) ∨
      ∃ href ∈ hrefs, (codes "mailto:").isPrefixOf href = true ∧
        e = (splitFirst 63 (href.drop 7)).1 := by
  unfold extractEmailsFromPageContent at h
  cases hd : decode_email_entities htmlText with
  | error e0 => rw [hd] at h; simp at h
  | ok decoded =>
    rw [hd] at h
    dsimp only at h
    have hres : dedupExact []
        (hrefs.foldl mailtoAppend
          (extract_emails_from_text decoded ++ extract_emails_from_text visibleText))
        = result := by
      injection h
    constructor
    · rw [← hres]
      exact (dedupExact_facts _ []).1
    · intro e he
      rw [← hres] at he
      have hmem := ((dedupExact_facts _ []).2 e he).2
      rcases mailtoAppend_foldl_mem hrefs _ e hmem with h2 | h2
      · left
        rcases List.mem_append.1 h2 with h3 | h3
        · exact extract_text_valid decoded e h3
        · exact extract_text_valid visibleText e h3
      · right
        exact h2

theorem C1_witness :
    ([codes "a@b.cc"] : List (List Nat)).Nodup ∧ ∀ e ∈ ([codes "a@b.cc"] : List (List Nat)),
      (is_valid_email e = true ∧ pyLower e = e) ∨
      ∃ href ∈ ([] : List (List Nat)), (codes "mailto:").isPrefixOf href = true ∧
        e = (splitFirst 63 (href.drop 7)).1 :=
  C1_harvest_dedup_validated (codes "a@b.cc") (codes "") [] [codes "a@b.cc"] (by rfl)

/-- C9 (the code violates it): harvesting is not total over page markup —
a numeric character entity denoting a code point at or above 0x110000
makes `chr` raise `ValueError` inside `decode_email_entities`, and
`HTTPHandler.extract_emails_from_page` has no handler for it, so the
exception propagates to the caller instead of an email list. -/
theorem C9_entity_overflow_raises :
    extractEmailsFromPageContent (codes "&#1114112;") (codes "") [] = .error () ∧
    decode_email_entities (codes "&#1114112;") = .error () := by
  refine ⟨by rfl, by rfl⟩

/-! ## Contact-page classifier (`utils.is_likely_contact_page`)

Each regex of the classifier is implemented as a decidable predicate with
the semantics of `re.search` for that particular pattern (all of them are
anchored at the start or end, or are plain substrings, or fixed-width
windows, so the translation is direct). -/

/-- Python `str.split(c)` keeping empty fields (fuel-based; each step
consumes the separator). -/
def splitOnCharGo (c : Nat) : Nat → List Nat → List (List Nat)
  | 0, l => [l]
  | fuel + 1, l =>
    match splitFirst c l with
    | (pre, none) => [pre]
    | (pre, some rest) => pre :: splitOnCharGo c fuel rest

def splitOnChar (c : Nat) (l : List Nat) : List (List Nat) := splitOnCharGo c l.length l

/-- Remove one trailing slash, the only way `/?$` can consume one. -/
def stripTrailSlash (t : List Nat) : List Nat :=
  match t.reverse with
  | 47 :: r => r.reverse
  | _ => t

/-- `/[^/]{lo,hi}$`: the trailing run of non-slash characters has length in
[lo, hi] and is preceded by a slash. -/
def endSegNoSlash (t : List Nat) (lo hi : Nat) : Bool :=
  let rev := t.reverse
  let run := rev.takeWhile fun c => c ≠ 47
  decide (lo ≤ run.length) && decide (run.length ≤ hi) &&
    ((rev.drop run.length).head? == some 47)

/-- `re.search(r'/[^/]{lo,hi}/?$', s)`. -/
def patEndSeg (s : List Nat) (lo hi : Nat) : Bool := endSegNoSlash (stripTrailSlash s) lo hi

/-- `re.search(r'/[^/]{3,15}/form/?$', s)`. -/
def patFormSeg (s : List Nat) : Bool :=
  let t := stripTrailSlash s
  (codes "/form").isSuffixOf t && endSegNoSlash (t.take (t.length - 5)) 3 15

/-- `re.search(r'/[^/]{3,15}x[^/]{lo2,hi2}/?$', s)` for a literal separator
`sep` (hyphen or underscore): the trailing non-slash run, preceded by a
slash, splits at some occurrence of `sep` into parts of the right sizes. -/
def patSepSeg (s : List Nat) (sep lo2 hi2 : Nat) : Bool :=
  let t := stripTrailSlash s
  let rev := t.reverse
  let run := (rev.takeWhile fun c => c ≠ 47).reverse
  ((rev.drop run.length).head? == some 47) &&
    (List.range run.length).any fun i =>
      run.get? i == some sep && decide (3 ≤ i) && decide (i ≤ 15) &&
      decide (lo2 ≤ run.length - i - 1) && decide (run.length - i - 1 ≤ hi2)

/-- `re.search(r'/[a-z]{2}/[^/]{3,15}/?$', s)`. -/
def patLangSeg (s : List Nat) : Bool :=
  let t := stripTrailSlash s
  let rev := t.reverse
  let run := rev.takeWhile fun c => c ≠ 47
  decide (3 ≤ run.length) && decide (run.length ≤ 15) &&
    (match rev.drop run.length with
     | 47 :: b :: a :: 47 :: _ => isLowerAlpha b && isLowerAlpha a
     | _ => false)

/-- The `^https?://` anchor: strip the scheme when present. -/
def dropHttpScheme (s : List Nat) : Option (List Nat) :=
  if (codes "https://").isPrefixOf s then some (s.drop 8)
  else if (codes "http://").isPrefixOf s then some (s.drop 7)
  else none

/-- `re.search(r'^https?://[^/]+/[^/]+/?$', s)`. -/
def patTopLevel (s : List Nat) : Bool :=
  match dropHttpScheme s with
  | none => false
  | some rest =>
    let h := rest.takeWhile fun c => c ≠ 47
    if h = [] then false
    else
      match rest.dropWhile fun c => c ≠ 47 with
      | 47 :: r2 =>
        let x := r2.takeWhile fun c => c ≠ 47
        let r3 := r2.dropWhile fun c => c ≠ 47
        decide (x ≠ []) && (r3 == [] || r3 == [47])
      | _ => false

/-- `re.search(r'^https?://[^/]+/[a-z]{2}/[^/]+/?$', s)`. -/
def patTopLevelLang (s : List Nat) : Bool :=
  match dropHttpScheme s with
  | none => false
  | some rest =>
    let h := rest.takeWhile fun c => c ≠ 47
    if h = [] then false
    else
      match rest.dropWhile fun c => c ≠ 47 with
      | 47 :: a :: b :: 47 :: r2 =>
        isLowerAlpha a && isLowerAlpha b &&
          (let x := r2.takeWhile fun c => c ≠ 47
           let r3 := r2.dropWhile fun c => c ≠ 47
           decide (x ≠ []) && (r3 == [] || r3 == [47]))
      | _ => false

/-- `re.search(r'^/[a-z]/[a-z]/?$', path)`. -/
def patAbbrevPath (p : List Nat) : Bool :=
  match p with
  | 47 :: a :: 47 :: b :: rest =>
    isLowerAlpha a && isLowerAlpha b && (rest == [] || rest == [47])
  | _ => false

/-- `re.search(r'/\d{4}/', s)`: a fixed-width window scan. -/
def patDate4 : List Nat → Bool
  | 47 :: d1 :: d2 :: d3 :: d4 :: 47 :: rest =>
    (isDigitChar d1 && isDigitChar d2 && isDigitChar d3 && isDigitChar d4) ||
      patDate4 (d1 :: d2 :: d3 :: d4 :: 47 :: rest)
  | _ :: rest => patDate4 rest
  | [] => false

/-- `re.search(r'/\d{2}-\d{2}-\d{4}/', s)`. -/
def patDateFull : List Nat → Bool
  | 47 :: a1 :: a2 :: 45 :: b1 :: b2 :: 45 :: c1 :: c2 :: c3 :: c4 :: 47 :: rest =>
    (isDigitChar a1 && isDigitChar a2 && isDigitChar b1 && isDigitChar b2 &&
     isDigitChar c1 && isDigitChar c2 && isDigitChar c3 && isDigitChar c4) ||
      patDateFull (a1 :: a2 :: 45 :: b1 :: b2 :: 45 :: c1 :: c2 :: c3 :: c4 :: 47 :: rest)
  | _ :: rest => patDateFull rest
  | [] => false

/-- `re.search(r'^[^\s]{3,15}$', t)` (whitespace in the ASCII sense the
inputs here use). -/
def patSingleWord (t : List Nat) : Bool :=
  decide (3 ≤ t.length) && decide (t.length ≤ 15) && t.all fun c => ! isSpaceChar c

/-- `re.search(r'^[^\s]{3,10}\s[^\s]{2,5}$', t)`. -/
def patTwoWords (t : List Nat) : Bool :=
  let w1 := t.takeWhile fun c => ! isSpaceChar c
  match t.dropWhile fun c => ! isSpaceChar c with
  | _ :: w2 =>
    decide (3 ≤ w1.length) && decide (w1.length ≤ 10) &&
      (w2.all fun c => ! isSpaceChar c) && decide (2 ≤ w2.length) && decide (w2.length ≤ 5)
  | [] => false

/-- The `common_url_segments` of `get_contact_page_patterns`. -/
def commonUrlSegments : List (List Nat) :=
  [codes "/c/", codes "/info/", codes "/support/", codes "/help/", codes "/reach/",
   codes "/connect/", codes "/get-in-touch/", codes "/write-to-us/", codes "/feedback/"]

/-- The `contact_indicators` checked against the link text. -/
def contactIndicators : List (List Nat) :=
  [codes "contact", codes "email", codes "mail", codes "message", codes "send",
   codes "write", codes "touch", codes "reach", codes "connect", codes "feedback",
   codes "help", codes "support", codes "info", codes "information", codes "form"]

/-- The literal `product_indicators` (the two date regexes are handled by
`patDate4` and `patDateFull`). -/
def productLiterals : List (List Nat) :=
  [codes "/product", codes "/category", codes "/shop", codes "/store", codes "/item",
   codes "/catalog", codes "/collection", codes "/gallery", codes "/portfolio",
   codes "/blog", codes "/news", codes "/article", codes "/p/", codes "/download",
   codes "/media", codes "/image", codes "/video", codes "/tag/", codes "/search",
   codes "/filter", codes "/sort", codes "/list", codes "/view", codes "/cart",
   codes "/checkout", codes "/payment", codes "/order", codes "/shipping",
   codes "/delivery"]

/-- Country-code TLDs that trigger the shallow-path bonus. -/
def ccTlds : List (List Nat) :=
  [codes "de", codes "fr", codes "es", codes "it", codes "nl", codes "pl", codes "se",
   codes "dk", codes "fi", codes "gr", codes "pt", codes "cz", codes "hu", codes "ro",
   codes "bg", codes "hr", codes "ee", codes "lv", codes "lt", codes "si", codes "sk",
   codes "mt", codes "ie"]

/-- `netloc.split('.')[-1]`. -/
def lastDotSeg (netloc : List Nat) : List Nat :=
  ((splitFirst 46 netloc.reverse).1).reverse

/-- The five `structural_patterns`, first match only. -/
def structuralMatch (u : List Nat) : Bool :=
  patEndSeg u 3 15 || patFormSeg u || patSepSeg u 45 2 10 || patSepSeg u 95 2 10 ||
    patLangSeg u

/-- The two `position_indicators`, first match only. -/
def positionMatch (u : List Nat) : Bool := patTopLevel u || patTopLevelLang u

/-- `utils.is_likely_contact_page(url, link_text)`: the full scoring
function; the two `urlparse` calls in the source are on the same string and
are modelled by one.  A parser `ValueError` propagates. -/
def is_likely_contact_page (url : List Nat) (link_text : Option (List Nat)) :
    Except Unit Int :=
  let url_lower := pyLower url
  match pyUrlparse url_lower with
  | .error e => .error e
  | .ok parts =>
    let segs := (splitOnChar 47 parts.path).filter (· ≠ [])
    let s1 : Int :=
      match segs with
      | [seg] =>
        if 3 ≤ seg.length ∧ seg.length ≤ 15 then 3
        else if seg.length ≤ 2 then 4
        else 0
      | _ => 0
    let s2 : Int := if segs.length ≤ 2 then 2 else 0
    let s3 : Int := if structuralMatch url_lower then 3 else 0
    let s4 : Int := if positionMatch url_lower then 2 else 0
    let s5 : Int := if commonUrlSegments.any (fun seg => containsSub seg url_lower) then 2 else 0
    let s6 : Int := if patAbbrevPath parts.path then 3 else 0
    let sLink : Int :=
      match link_text with
      | none => 0
      | some t =>
        let lt := pyLower t
        (if lt.length ≤ 15 then 1 else 0) +
        (if patSingleWord lt then 2 else 0) +
        (if patTwoWords lt then 2 else 0) +
        (if 64 ∈ t ∨ 9993 ∈ t ∨ 128231 ∈ t ∨ 128222 ∈ t then 3 else 0) +
        (if contactIndicators.any (fun ind => containsSub ind lt) then 2 else 0)
    let s7 : Int := if lastDotSeg parts.netloc ∈ ccTlds ∧ segs.length ≤ 2 then 1 else 0
    let p1 : Int := if 100 < url.length then -2 else 0
    let p2 : Int :=
      match splitOnChar 63 url with
      | _ :: second :: _ => if 20 < second.length then -1 else 0
      | _ => 0
    let p3 : Int :=
      if productLiterals.any (fun lit => containsSub lit url_lower) ∨
         patDate4 url_lower ∨ patDateFull url_lower then -3 else 0
    let c1 : Int :=
      if containsSub (codes "mail") url_lower ∨ containsSub (codes "email") url_lower ∨
         containsSub (codes "message") url_lower then 2 else 0
    let c2 : Int :=
      if containsSub (codes "form") url_lower ∨ containsSub (codes "send") url_lower ∨
         containsSub (codes "submit") url_lower then 1 else 0
    let c3 : Int :=
      if containsSub (codes "info") url_lower ∨ containsSub (codes "information") url_lower
      then 1 else 0
    let total := s1 + s2 + s3 + s4 + s5 + s6 + sLink + s7 + p1 + p2 + p3 + c1 + c2 + c3
    .ok (min (max total 0) 10)

/-! ## Claim C4: classifier score -/

/-- C4: the classifier score is an integer in [0, 10] for every URL and
optional link text on which it is defined (the URL parser can raise on a
bracket-unbalanced authority, in which case there is no score);
`score("https://x.com/contact", "Contact")` is 10 (at least 7), and
`score("https://x.com/products/category/items", "Products")` is 3
(at most 3). -/
theorem C4_classifier_range_and_bounds :
    (∀ (url : List Nat) (link_text : Option (List Nat)) (s : Int),
      is_likely_contact_page url link_text = .ok s → 0 ≤ s ∧ s ≤ 10) ∧
    (∃ s1 : Int, is_likely_contact_page (codes "https://x.com/contact")
      (some (codes "Contact")) = .ok s1 ∧ 7 ≤ s1) ∧
    (∃ s2 : Int, is_likely_contact_page (codes "https://x.com/products/category/items")
      (some (codes "Products")) = .ok s2 ∧ s2 ≤ 3) := by
  refine ⟨?_, ⟨10, by rfl, by norm_num⟩, ⟨3, by rfl, by norm_num⟩⟩
  intro url lt s h
  unfold is_likely_contact_page at h
  dsimp only at h
  cases hpp : pyUrlparse (pyLower url) with
  | error e => rw [hpp] at h; simp at h
  | ok parts =>
    rw [hpp] at h
    dsimp only at h
    injection h with h1
    rw [← h1]
    constructor
    · exact le_min (le_max_right _ _) (by norm_num)
    · exact min_le_right _ _

theorem C4_witness : (0 : Int) ≤ 10 ∧ (10 : Int) ≤ 10 :=
  C4_classifier_range_and_bounds.1 (codes "https://x.com/contact")
    (some (codes "Contact")) 10 (by rfl)

/-! ## Lightweight fetch backend (`HTTPHandler.fetch_url`)

`fetch_url` is decorated with
`@retry(stop=stop_after_attempt(MAX_RETRIES), wait=..., reraise=True)`.
Tenacity re-invokes the whole decorated body on each attempt, so the
visited-URL guard at the top of the body runs again on every retry.  The
network is an oracle giving the outcome of each attempted request; time
(the exponential backoff wait) has no effect on values and is not
modelled. -/

/-- Configuration constants of `config.py` used by the embedded code. -/
def MAX_RETRIES : Nat := 2

def MAX_CONTACT_PAGES : Nat := 3

def MAX_PAGES_PER_DOMAIN : Nat := 10

/-- Outcome of one `session.get` call: a raised
`requests.RequestException`, or a response with status code, content type
and body.  Parsing and any other unexpected error are covered by the
body's catch-all `except Exception`, which returns `(None, None)`. -/
inductive NetResponse where
  | exn : NetResponse
  | resp (status : Nat) (contentType : List Nat) (text : List Nat) : NetResponse

/-- One execution of the decorated body of `fetch_url`: the visited-set
guard, the request, the status check, the content-type check.
Result: `Sum.inl ()` means the body re-raised a `RequestException`;
`Sum.inr r` means it returned (`none` standing for `(None, None)`).
Also returns the updated visited set and how many network requests were
made. -/
def fetchBody (resp : NetResponse) (visited : List (List Nat)) (url : List Nat) :
    (Sum Unit (Option (List Nat))) × List (List Nat) × Nat :=
  if pyMem url visited then (Sum.inr none, visited, 0)
  else
    let visited' := url :: visited
    match resp with
    | .exn => (Sum.inl (), visited', 1)
    | .resp status ct text =>
      if status ≠ 200 then (Sum.inr none, visited', 1)
      else if ¬ containsSub (codes "text/html") (pyLower ct) then (Sum.inr none, visited', 1)
      else (Sum.inr (some text), visited', 1)

structure FetchOut where
  raised : Bool
  result : Option (List Nat)
  visited : List (List Nat)
  requests : Nat
  deriving Repr

/-- The tenacity retry loop: run the body; on an exception retry until the
attempt count reaches `MAX_RETRIES`, then re-raise (`reraise=True`). -/
def fetchLoop (net : Nat → NetResponse) (url : List Nat) :
    Nat → Nat → List (List Nat) → Nat → FetchOut
  | 0, _, vis, reqs => ⟨true, none, vis, reqs⟩
  | remaining + 1, idx, vis, reqs =>
    match fetchBody (net idx) vis url with
    | (Sum.inr r, vis', req') => ⟨false, r, vis', reqs + req'⟩
    | (Sum.inl (), vis', req') =>
      match remaining with
      | 0 => ⟨true, none, vis', reqs + req'⟩
      | _ + 1 => fetchLoop net url remaining (idx + 1) vis' (reqs + req')

/-- `HTTPHandler.fetch_url(url)` under a network oracle `net` (outcome of
the i-th attempted request) and the handler state `visited`. -/
def fetch_url (net : Nat → NetResponse) (visited : List (List Nat)) (url : List Nat) :
    FetchOut :=
  fetchLoop net url MAX_RETRIES 0 visited 0

/-- The state of `PlaywrightHandler.navigate_to_url`: the handler-level
visited-set guard; everything after it (navigation, salvage, banner
handling, content read — lines 163-209) is abstracted as one oracle
outcome `body` giving the success flag and the content. -/
def navigate_to_url (body : Bool × Option (List Nat)) (visited : List (List Nat))
    (url : List Nat) : (Bool × Option (List Nat)) × List (List Nat) × Nat :=
  if pyMem url visited then ((false, none), visited, 0)
  else (body, url :: visited, 1)

/-! ## Claims C3 and C10: fetch behaviour -/

/-- C3: `fetch_url` never raises to its caller.  In particular a transient
`RequestException` on the first attempt does not survive the retry bound:
the first attempt already added the URL to `visited_urls`, so the retry
re-enters the body, hits the visited guard, and returns `(None, None)`
instead of attempting (and possibly re-raising) again. -/
theorem C3_fetch_url_never_raises (net : Nat → NetResponse)
    (visited : List (List Nat)) (url : List Nat) :
    (fetch_url net visited url).raised = false := by
  unfold fetch_url fetchLoop MAX_RETRIES
  by_cases hv : pyMem url visited
  · simp [fetchBody, hv]
  · cases hnet : net 0 with
    | exn =>
      simp only [fetchBody, hv, if_false, hnet]
      have hv' : pyMem url (url :: visited) = true := by
        rw [pyMem_iff]; simp
      simp [fetchLoop, fetchBody, hv']
    | resp status ct text =>
      simp only [fetchBody, hv, if_false, hnet]
      by_cases hst : status ≠ 200
      · simp [hst]
      · simp only [hst, if_false]
        by_cases hct : ¬ containsSub (codes "text/html") (pyLower ct)
        · simp [hct]
        · simp [hct]

/-- C10: each URL is fetched over the network at most once per handler.
After any `fetch_url(u)` call the URL is in the visited set, and any later
`fetch_url(u)` on the resulting state returns `(None, None)` without
raising and without making a network request, whatever the network would
answer; likewise `navigate_to_url(u)` on the Rendered backend returns
`(False, None, None)` with no navigation. -/
theorem C10_visited_urls_never_refetched :
    (∀ (net1 net2 : Nat → NetResponse) (visited : List (List Nat)) (url : List Nat),
      fetch_url net2 (fetch_url net1 visited url).visited url =
        ⟨false, none, (fetch_url net1 visited url).visited, 0⟩) ∧
    (∀ (body1 body2 : Bool × Option (List Nat)) (visited : List (List Nat)) (url : List Nat),
      navigate_to_url body2 (navigate_to_url body1 visited url).2.1 url =
        ((false, none), (navigate_to_url body1 visited url).2.1, 0)) := by
  have hfetch_mem : ∀ (net : Nat → NetResponse) (visited : List (List Nat)) (url : List Nat),
      url ∈ (fetch_url net visited url).visited := by
    intro net visited url
    unfold fetch_url fetchLoop MAX_RETRIES
    by_cases hv : pyMem url visited
    · simp only [fetchBody, hv, if_true]
      rw [← pyMem_iff]; exact hv
    · cases hnet : net 0 with
      | exn =>
        simp only [fetchBody, hv, if_false, hnet]
        have hv' : pyMem url (url :: visited) = true := by rw [pyMem_iff]; simp
        simp [fetchLoop, fetchBody, hv']
      | resp status ct text =>
        simp only [fetchBody, hv, if_false, hnet]
        by_cases hst : status ≠ 200
        · simp [hst]
        · simp only [hst, if_false]
          by_cases hct : ¬ containsSub (codes "text/html") (pyLower ct)
          · simp [hct]
          · simp [hct]
  have hfetch_visited : ∀ (net : Nat → NetResponse) (visited : List (List Nat)) (url : List Nat),
      pyMem url visited = true → fetch_url net visited url = ⟨false, none, visited, 0⟩ := by
    intro net visited url hv
    unfold fetch_url fetchLoop MAX_RETRIES
    simp [fetchBody, hv]
  constructor
  · intro net1 net2 visited url
    exact hfetch_visited net2 _ url (by rw [pyMem_iff]; exact hfetch_mem net1 visited url)
  · intro body1 body2 visited url
    unfold navigate_to_url
    by_cases hv : pyMem url visited
    · simp [hv]
    · simp only [hv, if_false]
      have hv' : pyMem url (url :: visited) = true := by rw [pyMem_iff]; simp
      simp [hv']

/-! ## Crawl orchestration (`Crawler`)

`Crawler.find_contact_pages` wraps `_find_contact_pages_impl` in
`asyncio.wait_for(..., CONTACT_PAGE_SEARCH_TIMEOUT)` and maps
`asyncio.TimeoutError` (and any other exception) to `[]`.  The
implementation runs three stages on the session state:

1. `_crawl_for_contact_pages(url, url)` — one visit of the seed page (the
   method never calls itself despite its docstring), appending scored
   links while the pool is below `MAX_CONTACT_PAGES`;
2. the Playwright-direct retry when fewer than 2 candidates were found —
   appends without any cap check;
3. the synthesized common-contact-path fallback when the pool is empty —
   appends all ten paths, without any cap check;

then scores, stably sorts (descending) and truncates to
`MAX_CONTACT_PAGES`.

The network and browser are oracles in `CrawlEnv`; `pwNavigate` takes a
call index because `navigate_to_url` is stateful across the two stages
(claim C10).  `is_same_domain` compares `get_domain` values, so the
seed-vs-seed check of stage 1 is true by determinism whatever
`tldextract` returns; `getDomain` stands for that oracle.  The
`hasattr(self.playwright_handler, 'page')` test is true whenever a
Playwright handler exists (`__init__` always sets the attribute). -/

structure CrawlEnv where
  timedOut : Bool
  hasPlaywright : Bool
  httpFetch : List Nat → Option (List Nat)
  pwNavigate : List Nat → Nat → Bool
  pwFindContact : List Nat → List (List Nat)
  httpFindContact : List Nat → List (List Nat)
  getDomain : List Nat → List Nat

structure CrawlState where
  visited : List (List Nat)
  contact_pages : List (List Nat)
  deriving Repr

/-- `Crawler._should_visit_url` (with the session state and the timeout
flag of the environment). -/
def shouldVisitUrl (env : CrawlEnv) (st : CrawlState) (url baseUrl : List Nat) : Bool :=
  ¬ pyMem url st.visited ∧
  env.getDomain url == env.getDomain baseUrl ∧
  st.visited.length < MAX_PAGES_PER_DOMAIN ∧
  ¬ env.timedOut

/-- The capped append loop (`crawler.py` lines 194-196): a found contact
URL is added when new and the pool is below `MAX_CONTACT_PAGES`. -/
def appendCapped (pool : List (List Nat)) : List (List Nat) → List (List Nat)
  | [] => pool
  | u :: us =>
    appendCapped
      (if ¬ pyMem u pool ∧ pool.length < MAX_CONTACT_PAGES then pool ++ [u] else pool) us

/-- `Crawler._crawl_for_contact_pages(url, base_url)`: guards, the visit
mark, the HTTP fetch with Playwright fallback, and the capped append of
the found contact links. -/
def crawlForContactPages (env : CrawlEnv) (st : CrawlState) (url baseUrl : List Nat) :
    CrawlState :=
  if env.timedOut ∨ MAX_CONTACT_PAGES ≤ st.contact_pages.length then st
  else if ¬ shouldVisitUrl env st url baseUrl then st
  else
    let st1 : CrawlState := { st with visited := url :: st.visited }
    let soupOk :=
      match env.httpFetch url with
      | some _ => true
      | none => env.hasPlaywright && env.pwNavigate url 0
    if soupOk then
      let contactUrls :=
        if env.hasPlaywright then env.pwFindContact baseUrl
        else env.httpFindContact baseUrl
      { st1 with contact_pages := appendCapped st1.contact_pages contactUrls }
    else st1

/-- Pool after stage 1, starting from the reset session state. -/
def poolAfterCrawl (env : CrawlEnv) (seed : List Nat) : List (List Nat) :=
  (crawlForContactPages env ⟨[], []⟩ seed seed).contact_pages

/-- The uncapped dedup-append used by stages 2 and 3. -/
def appendNoDup (pool : List (List Nat)) : List (List Nat) → List (List Nat)
  | [] => pool
  | u :: us => appendNoDup (if ¬ pyMem u pool then pool ++ [u] else pool) us

/-- Pool after stage 2 (the Playwright-direct retry, `crawler.py` lines
100-115): entered when fewer than 2 candidates were found and a Playwright
handler exists; appends with no cap check. -/
def poolAfterPlaywright (env : CrawlEnv) (seed : List Nat) : List (List Nat) :=
  let p := poolAfterCrawl env seed
  if p.length < 2 ∧ env.hasPlaywright then
    if env.pwNavigate seed 1 then appendNoDup p (env.pwFindContact seed) else p
  else p

/-- The `common_contact_paths` list of `_find_contact_pages_impl`. -/
def commonContactPaths : List (List Nat) :=
  [codes "/contact", codes "/contact-us", codes "/contacte", codes "/kontakt",
   codes "/contacto", codes "/contatti", codes "/about-us", codes "/about",
   codes "/impressum", codes "/imprint"]

/-- Pool after stage 3 (the synthesized fallback, lines 117-136): when the
pool is still empty, parse the seed for its root and append every common
contact path, with no cap check.  A parser error propagates (it is caught
by `find_contact_pages`). -/
def poolAfterFallback (env : CrawlEnv) (seed : List Nat) :
    Except Unit (List (List Nat)) :=
  let p := poolAfterPlaywright env seed
  if p.length = 0 then
    match pyUrlparse seed with
    | .error e => .error e
    | .ok parts =>
      let baseUrl := parts.scheme ++ codes "://" ++ parts.netloc
      .ok (appendNoDup p (commonContactPaths.map fun path => baseUrl ++ path))
  else .ok p

/-- Stable descending insertion by score: an element goes after every
element with a score at least as large, which is exactly the order
`list.sort(key=..., reverse=True)` (a stable sort) produces. -/
def insertDesc (x : List Nat × Int) : List (List Nat × Int) → List (List Nat × Int)
  | [] => [x]
  | y :: ys => if x.2 ≤ y.2 then y :: insertDesc x ys else x :: y :: ys

def sortDescByScore (l : List (List Nat × Int)) : List (List Nat × Int) :=
  l.foldl (fun acc x => insertDesc x acc) []

/-- Score every pooled page with `is_likely_contact_page(page)` (no link
text), left to right, propagating the first parser error. -/
def scorePool : List (List Nat) → Except Unit (List (List Nat × Int))
  | [] => .ok []
  | u :: us =>
    match is_likely_contact_page u none, scorePool us with
    | .ok s, .ok rest => .ok ((u, s) :: rest)
    | .error e, _ => .error e
    | _, .error e => .error e

/-- `Crawler._find_contact_pages_impl(url)`: the three stages, then score,
stable-sort descending and truncate to `MAX_CONTACT_PAGES`. -/
def findContactPagesImpl (env : CrawlEnv) (seed : List Nat) :
    Except Unit (List (List Nat)) :=
  match poolAfterFallback env seed with
  | .error e => .error e
  | .ok pool =>
    match scorePool pool with
    | .error e => .error e
    | .ok scored => .ok (((sortDescByScore scored).map Prod.fst).take MAX_CONTACT_PAGES)

/-- Where the outer `asyncio.wait_for` deadline
(`CONTACT_PAGE_SEARCH_TIMEOUT`) fires relative to the implementation run:
not at all, or between stages (the await points). -/
inductive OuterCut where
  | completes : OuterCut
  | expiresAfterCrawl : OuterCut
  | expiresAfterPlaywright : OuterCut
  deriving DecidableEq, Repr

/-- The candidate pool the session had collected at the moment the outer
deadline fired. -/
def collectedAtCut (env : CrawlEnv) (seed : List Nat) : OuterCut → List (List Nat)
  | .expiresAfterCrawl => poolAfterCrawl env seed
  | .expiresAfterPlaywright => poolAfterPlaywright env seed
  | .completes => match findContactPagesImpl env seed with
    | .ok r => r
    | .error _ => []

/-- `Crawler.find_contact_pages(url)`: the outer `asyncio.wait_for`; a
`TimeoutError` or any other exception yields `[]`. -/
def crawlerFindContactPages (env : CrawlEnv) (seed : List Nat) (cut : OuterCut) :
    List (List Nat) :=
  match cut with
  | .completes =>
    match findContactPagesImpl env seed with
    | .ok r => r
    | .error _ => []
  | _ => []

/-! ## Claims C2, C5 and C6: orchestration -/

/-- Environment in which the Lightweight backend fails for every page and
the Rendered backend yields nothing (all-403 style scenario). -/
def envAllFail : CrawlEnv :=
  { timedOut := false
    hasPlaywright := true
    httpFetch := fun _ => none
    pwNavigate := fun _ _ => false
    pwFindContact := fun _ => []
    httpFindContact := fun _ => []
    getDomain := fun u => u }

/-- Environment in which the seed page fetches fine over HTTP and its
links yield one candidate contact page. -/
def envOneCandidate : CrawlEnv :=
  { timedOut := false
    hasPlaywright := false
    httpFetch := fun _ => some (codes "<html>")
    pwNavigate := fun _ _ => false
    pwFindContact := fun _ => []
    httpFindContact := fun _ => [codes "http://site.com/contact"]
    getDomain := fun u => u }

/-- C2 (as written, refuted): when the outer deadline expires after the
crawl stage had already collected a candidate, `find_contact_pages`
returns `[]`, not the collected candidate. -/
theorem C2_counterexample_timeout_discards_collected :
    crawlerFindContactPages envOneCandidate (codes "http://site.com")
      .expiresAfterCrawl = [] ∧
    collectedAtCut envOneCandidate (codes "http://site.com") .expiresAfterCrawl
      = [codes "http://site.com/contact"] := by
  exact ⟨rfl, rfl⟩

/-- C2 (amended): on expiry of the outer discovery deadline
`find_contact_pages` returns the empty list without raising — the
`except asyncio.TimeoutError` handler returns `[]`, discarding whatever
candidates the session had already collected; and there are runs in which
the discarded collection was nonempty. -/
theorem C2_timeout_returns_empty :
    (∀ (env : CrawlEnv) (seed : List Nat) (cut : OuterCut), cut ≠ OuterCut.completes →
      crawlerFindContactPages env seed cut = []) ∧
    (∃ (env : CrawlEnv) (seed : List Nat) (cut : OuterCut), cut ≠ OuterCut.completes ∧
      collectedAtCut env seed cut ≠ []) := by
  constructor
  · intro env seed cut h
    cases cut with
    | completes => exact absurd rfl h
    | expiresAfterCrawl => rfl
    | expiresAfterPlaywright => rfl
  · refine ⟨envOneCandidate, codes "http://site.com", .expiresAfterCrawl, by decide, ?_⟩
    intro h
    have : collectedAtCut envOneCandidate (codes "http://site.com") .expiresAfterCrawl
        = [codes "http://site.com/contact"] := rfl
    rw [this] at h
    exact absurd h (by simp)

theorem C2_witness :
    crawlerFindContactPages envOneCandidate (codes "http://site.com")
      .expiresAfterCrawl = [] :=
  C2_timeout_returns_empty.1 envOneCandidate (codes "http://site.com")
    .expiresAfterCrawl (by decide)

theorem appendCapped_length_le (urls : List (List Nat)) :
    ∀ pool, pool.length ≤ MAX_CONTACT_PAGES →
      (appendCapped pool urls).length ≤ MAX_CONTACT_PAGES := by
  induction urls with
  | nil => intro pool h; exact h
  | cons u us ih =>
    intro pool h
    unfold appendCapped
    apply ih
    by_cases hc : ¬ pyMem u pool ∧ pool.length < MAX_CONTACT_PAGES
    · rw [if_pos hc]
      simp only [List.length_append, List.length_cons, List.length_nil]
      omega
    · rw [if_neg hc]
      exact h

/-- C5 (as written, refuted): the internal candidate pool can exceed the
cap — with every backend failing, the synthesized-fallback stage pushes
the pool to all ten common paths, more than `MAX_CONTACT_PAGES = 3`,
before the final truncation. -/
theorem C5_counterexample_pool_exceeds_cap :
    poolAfterFallback envAllFail (codes "http://site.com")
      = .ok (commonContactPaths.map fun path => codes "http://site.com" ++ path) ∧
    MAX_CONTACT_PAGES <
      (commonContactPaths.map fun path => codes "http://site.com" ++ path).length := by
  exact ⟨rfl, by decide⟩

/-- C5 (amended): the candidate list returned by `find_contact_pages`
never exceeds `MAX_CONTACT_PAGES`, and during the recursive crawl stage
the pool never exceeds the cap either; but the Playwright-direct and
synthesized-fallback stages append without a cap check, so the internal
pool can exceed the cap before the final truncation. -/
theorem C5_returned_list_capped :
    (∀ (env : CrawlEnv) (seed : List Nat) (cut : OuterCut),
      (crawlerFindContactPages env seed cut).length ≤ MAX_CONTACT_PAGES) ∧
    (∀ (env : CrawlEnv) (seed : List Nat),
      (poolAfterCrawl env seed).length ≤ MAX_CONTACT_PAGES) := by
  constructor
  · intro env seed cut
    cases cut with
    | completes =>
      unfold crawlerFindContactPages
      cases h1 : findContactPagesImpl env seed with
      | error e => simp
      | ok r =>
        dsimp only
        unfold findContactPagesImpl at h1
        cases h2 : poolAfterFallback env seed with
        | error e => rw [h2] at h1; simp at h1
        | ok pool =>
          rw [h2] at h1
          dsimp only at h1
          cases h3 : scorePool pool with
          | error e => rw [h3] at h1; simp at h1
          | ok scored =>
            rw [h3] at h1
            dsimp only at h1
            injection h1 with h1
            rw [← h1]
            simp only [List.length_take]
            exact min_le_left _ _
    | expiresAfterCrawl => simp [crawlerFindContactPages]
    | expiresAfterPlaywright => simp [crawlerFindContactPages]
  · intro env seed
    unfold poolAfterCrawl crawlForContactPages
    by_cases h2 : env.timedOut ∨ MAX_CONTACT_PAGES ≤ (List.length ([] : List (List Nat)))
    · rw [if_pos h2]; simp
    · rw [if_neg h2]
      by_cases h3 : ¬ shouldVisitUrl env ⟨[], []⟩ seed seed
      · rw [if_pos h3]; simp
      · rw [if_neg h3]
        dsimp only
        by_cases h4 : (match env.httpFetch seed with
          | some _ => true
          | none => env.hasPlaywright && env.pwNavigate seed 0) = true
        · rw [if_pos h4]
          dsimp only
          exact appendCapped_length_le _ _ (by simp)
        · rw [if_neg h4]
          simp

/-- The synthesized fallback URLs are pairwise distinct, so the dedup
append over an empty pool returns them all. -/
theorem appendNoDup_all_new (l : List (List Nat)) :
    ∀ acc, l.Nodup → (∀ x ∈ l, x ∉ acc) → appendNoDup acc l = acc ++ l := by
  induction l with
  | nil => intro acc _ _; simp [appendNoDup]
  | cons u us ih =>
    intro acc hnd hnew
    unfold appendNoDup
    have hu : ¬ pyMem u acc := by
      rw [pyMem_iff]
      exact hnew u (by simp)
    rw [if_pos hu]
    rw [ih (acc ++ [u]) (List.nodup_cons.1 hnd).2 ?_]
    · simp
    · intro x hx hmem
      rcases List.mem_append.1 hmem with hmem | hmem
      · exact hnew x (List.mem_cons_of_mem _ hx) hmem
      · simp at hmem
        exact (List.nodup_cons.1 hnd).1 (hmem ▸ hx)

/-- C6 (as written, refuted): with every backend failing, the returned
list is not the synthesized fallback-path list — it is its score-sorted
truncation to `MAX_CONTACT_PAGES = 3` entries (here the first three
paths, all ten scoring equally). -/
theorem C6_counterexample_result_truncated :
    crawlerFindContactPages envAllFail (codes "http://site.com") .completes
      = [codes "http://site.com/contact", codes "http://site.com/contact-us",
         codes "http://site.com/contacte"] ∧
    crawlerFindContactPages envAllFail (codes "http://site.com") .completes ≠
      commonContactPaths.map (fun path => codes "http://site.com" ++ path) := by
  constructor
  · rfl
  · intro h
    have h10 : (commonContactPaths.map
        (fun path => codes "http://site.com" ++ path)).length = 10 := by
      simp [commonContactPaths]
    rw [← h] at h10
    have h3 : (crawlerFindContactPages envAllFail (codes "http://site.com")
        .completes).length = 3 := rfl
    rw [h3] at h10
    exact absurd h10 (by norm_num)

/-- C6 (amended): if the Lightweight backend fails on the seed and the
Rendered backend yields zero candidates, the pool after the fallback stage
is exactly the synthesized list (site root plus each conventional contact
path, in the fixed order), and the value discovery returns is that list
scored, stably sorted by descending score, and truncated to the first
`MAX_CONTACT_PAGES` entries. -/
theorem C6_fallback_synthesized_sorted_truncated (env : CrawlEnv) (seed : List Nat)
    (parts : UrlParts)
    (hhttp : env.httpFetch seed = none)
    (hpwfind : env.pwFindContact seed = [])
    (hparse : pyUrlparse seed = .ok parts) :
    poolAfterFallback env seed =
      .ok (commonContactPaths.map fun path =>
        parts.scheme ++ codes "://" ++ parts.netloc ++ path) ∧
    findContactPagesImpl env seed =
      (match scorePool (commonContactPaths.map fun path =>
          parts.scheme ++ codes "://" ++ parts.netloc ++ path) with
       | .error e => .error e
       | .ok scored => .ok (((sortDescByScore scored).map Prod.fst).take MAX_CONTACT_PAGES)) := by
  have hcrawl : poolAfterCrawl env seed = [] := by
    unfold poolAfterCrawl crawlForContactPages
    by_cases h2 : env.timedOut ∨ MAX_CONTACT_PAGES ≤ (List.length ([] : List (List Nat)))
    · rw [if_pos h2]
    · rw [if_neg h2]
      by_cases h3 : ¬ shouldVisitUrl env ⟨[], []⟩ seed seed
      · rw [if_pos h3]
      · rw [if_neg h3]
        dsimp only
        rw [hhttp]
        by_cases h4 : (env.hasPlaywright && env.pwNavigate seed 0) = true
        · rw [if_pos h4]
          dsimp only
          by_cases h5 : env.hasPlaywright = true
          · simp only [h5, if_true, hpwfind]
            rfl
          · simp only [h5] at h4
            simp at h4
        · rw [if_neg h4]
  have hpw : poolAfterPlaywright env seed = [] := by
    unfold poolAfterPlaywright
    rw [hcrawl]
    by_cases h1 : (List.length ([] : List (List Nat)) < 2) ∧ env.hasPlaywright = true
    · rw [if_pos h1]
      by_cases h2 : env.pwNavigate seed 1 = true
      · rw [if_pos h2, hpwfind]
        rfl
      · rw [if_neg h2]
    · rw [if_neg h1]
  have hfall : poolAfterFallback env seed =
      .ok (commonContactPaths.map fun path =>
        parts.scheme ++ codes "://" ++ parts.netloc ++ path) := by
    unfold poolAfterFallback
    rw [hpw]
    simp only [List.length_nil, if_pos rfl, hparse]
    have hnodup : (commonContactPaths.map fun path =>
        parts.scheme ++ codes "://" ++ parts.netloc ++ path).Nodup := by
      refine List.Nodup.map ?_ (by decide)
      intro a b hab
      exact List.append_cancel_left hab
    rw [appendNoDup_all_new _ [] hnodup (by simp)]
    simp
  refine ⟨hfall, ?_⟩
  unfold findContactPagesImpl
  rw [hfall]

theorem C6_witness :
    poolAfterFallback envAllFail (codes "http://site.com") =
      .ok (commonContactPaths.map fun path =>
        codes "http" ++ codes "://" ++ codes "site.com" ++ path) ∧
    findContactPagesImpl envAllFail (codes "http://site.com") =
      (match scorePool (commonContactPaths.map fun path =>
          codes "http" ++ codes "://" ++ codes "site.com" ++ path) with
       | .error e => .error e
       | .ok scored =>
         .ok (((sortDescByScore scored).map Prod.fst).take MAX_CONTACT_PAGES)) :=
  C6_fallback_synthesized_sorted_truncated envAllFail (codes "http://site.com")
    ⟨codes "http", codes "site.com", [], [], []⟩ rfl rfl (by rfl)

end Extractor

